import Mathlib

/-!
# K-Means (Syllo/K-Means): a shallow embedding of `src/src/k-means.c`

The clustering kernel `k_means_d` (exact mode, `double`) and `k_means_f`
(accelerated mode, `float`) is embedded over exact rational arithmetic.

Modelling conventions

* C arrays are total maps from indices: `data[pos][dim]` is `data pos dim`
  with `data : Nat → Nat → ℚ`, `point_centroid_map[pos]` is
  `point_centroid_map pos`.  A store `a[i] = v` is `store1 a i v`.
* The routines are embedded twice.  The definitions without suffix work over
  exact rational arithmetic: `double` / `float` values are rationals, and
  `HUGE_VAL` (the initial value of `closest_centroid`) is the extra element
  `none` of `Option ℚ`, larger than every rational.  They serve the properties
  that are stated over exact arithmetic or do not depend on arithmetic.
* The definitions with suffix `_in` are the same code of `k_means_f` over an
  arbitrary arithmetic `Arith F` of the element type.  `exact_arith` gives back
  the exact embedding (`k_means_f_in_exact`); `float_arith` is IEEE 754 binary32
  with round-to-nearest-even, infinities and NaN, every C operation rounded on
  its own, and evaluates the `float` code where rounding or overflow matters.
* `size_t` quantities (`pos`, `centroids_point_count[..]`, the loop bounds,
  `lb`, `ub`, `convergence_iterations`) are natural numbers: positions and
  counts are bounded by `points`, and `pos + invalid_neighbours_up_to` stays
  below `2^64` for every buffer that fits in memory.
* The `uint8_t` loop variable `centro` runs over `0 .. k-1` and never wraps,
  since `k` itself is a `uint8_t`; `k` and the centroid identifiers are natural
  numbers.
* The `uint32_t` settle counters `niter_bound_centroid[..]` wrap modulo `2^32`
  on `++`.
* `for (i = 0; i < n; ++i) body` is `forLoop n body`.
* The `do { ... } while (!has_converged)` loop has no iteration cap in the
  source; it is driven by a fuel argument and yields `none` when the fuel is
  exhausted before a pass converges.
* The initial centroids left by `initialize_centroids_*` and the uninitialised
  (`malloc`) contents of `centroids_temp` are arguments of the embedded
  routines; the initializer itself is `initialize_centroids`, with the values
  returned by `random()` and the libc constant `RAND_MAX` as arguments.
-/

namespace KMeans

/-! ## Control and memory primitives -/

/-- State after running `body 0`, `body 1`, ..., `body (n-1)` in that order:
the C loop `for (i = 0; i < n; ++i) body(i)`. -/
def forLoop {σ : Type} : Nat → (Nat → σ → σ) → σ → σ
  | 0, _, s => s
  | n + 1, body, s => body n (forLoop n body s)

/-- Array store `a[i] = v`. -/
def store1 {α : Type} (a : Nat → α) (i : Nat) (v : α) : Nat → α :=
  fun x => if x = i then v else a x

/-- Two-dimensional array store `a[i][j] = v`. -/
def store2 {α : Type} (a : Nat → Nat → α) (i j : Nat) (v : α) : Nat → Nat → α :=
  fun x y => if x = i ∧ y = j then v else a x y

/-- Comparison `d < closest_centroid` over exact arithmetic, where `none` stands
for `HUGE_VAL`: every exact distance is below it. -/
def lt_closest (d : ℚ) : Option ℚ → Bool
  | none => true
  | some c => decide (d < c)

/-! ## Code shared verbatim by `k_means_d` and `k_means_f` -/

/-- Lines 89-93 (and 166-170), over exact arithmetic: the squared Euclidean
distance accumulated over the dimensions,
`distance_square += (centroids[centro][dim] - data[pos][dim]) * (...)`. -/
def distance_square (dimension : Nat) (centroids data : Nat → Nat → ℚ)
    (centro pos : Nat) : ℚ :=
  forLoop dimension
    (fun dim acc =>
      acc + (centroids centro dim - data pos dim) * (centroids centro dim - data pos dim))
    0

/-- Lines 85-98 (and 162-175), over exact arithmetic: the scan over the
centroids.  The state is the pair `(centroid_chosen, closest_centroid)`, started at `(0, HUGE_VAL)`. -/
def find_closest (dimension k : Nat) (centroids data : Nat → Nat → ℚ)
    (pos : Nat) : Nat × Option ℚ :=
  forLoop k
    (fun centro st =>
      let d := distance_square dimension centroids data centro pos
      if lt_closest d st.2 then (centro, some d) else st)
    (0, none)

/-- The value of `centroid_chosen` after the scan. -/
def centroid_chosen (dimension k : Nat) (centroids data : Nat → Nat → ℚ)
    (pos : Nat) : Nat :=
  (find_closest dimension k centroids data pos).1

/-- Lines 105-110 (and 192-197), over exact arithmetic: the fused accumulation
into `centroids_temp[centroid_chosen]`, given the already incremented count. -/
def accumulate (dimension : Nat) (data : Nat → Nat → ℚ) (pos chosen : Nat)
    (count : Nat → Nat) (temp : Nat → Nat → ℚ) : Nat → Nat → ℚ :=
  if count chosen = 1 then
    forLoop dimension (fun dim t => store2 t chosen dim (data pos dim)) temp
  else
    forLoop dimension (fun dim t => store2 t chosen dim (t chosen dim + data pos dim)) temp

/-- Lines 113-119 (and 200-206), over exact arithmetic: the centroid update. -/
def update_centroids (dimension k : Nat) (count : Nat → Nat)
    (temp centroids : Nat → Nat → ℚ) : Nat → Nat → ℚ :=
  forLoop k
    (fun centro c =>
      if count centro ≠ 0 then
        forLoop dimension
          (fun dim c => store2 c centro dim (temp centro dim / (count centro : ℚ))) c
      else c)
    centroids

/-! ## `initialize_centroids_double` and `initialize_centroids_float` -/

/-- Lines 53-57 (and 37-41): the row index drawn for one centroid,
`(size_t)((double)randval / (double)RAND_MAX * (double)points)`, over exact
arithmetic.  `RAND_MAX` is the libc constant bounding the values `randval` that
`random()` returns; the conversion to `size_t` truncates. -/
def random_position_unsigned (RAND_MAX points randval : Nat) : Nat :=
  ⌊(randval : ℚ) / (RAND_MAX : ℚ) * (points : ℚ)⌋₊

/-- Lines 48-62 (and 33-46): every centroid row `i < k` receives the
coordinates of the data row drawn for it; `rand i` is the value returned by the
call of `random()` made for centroid `i`. -/
def initialize_centroids (RAND_MAX points dimension k : Nat) (data : Nat → Nat → ℚ)
    (rand : Nat → Nat) (centroids : Nat → Nat → ℚ) : Nat → Nat → ℚ :=
  forLoop k
    (fun i c =>
      forLoop dimension
        (fun j c => store2 c i j (data (random_position_unsigned RAND_MAX points (rand i)) j))
        c)
    centroids

/-- The `points` entries of the caller's buffer `point_centroid_map[points]`,
in index order. -/
def buffer (points : Nat) (map : Nat → Nat) : List Nat :=
  (List.range points).map map

/-! ## `k_means_d` -/

/-- The working state of `k_means_d`. -/
structure StateD where
  centroids : Nat → Nat → ℚ
  centroids_temp : Nat → Nat → ℚ
  centroids_point_count : Nat → Nat
  point_centroid_map : Nat → Nat
  has_converged : Bool

/-- Lines 83-111: the body of the loop over the points, for one `pos`. -/
def body_d (dimension k : Nat) (data : Nat → Nat → ℚ) (pos : Nat) (s : StateD) : StateD :=
  let chosen := centroid_chosen dimension k s.centroids data pos
  let conv := if s.point_centroid_map pos ≠ chosen then false else s.has_converged
  let map := store1 s.point_centroid_map pos chosen
  let count := store1 s.centroids_point_count chosen (s.centroids_point_count chosen + 1)
  { s with
    has_converged := conv
    point_centroid_map := map
    centroids_point_count := count
    centroids_temp := accumulate dimension data pos chosen count s.centroids_temp }

/-- Lines 79-111: `memset` of the counts, `has_converged = true`, then the
loop over all points. -/
def assign_d (points dimension k : Nat) (data : Nat → Nat → ℚ) (s : StateD) : StateD :=
  forLoop points (body_d dimension k data)
    { s with centroids_point_count := fun _ => 0, has_converged := true }

/-- Lines 79-120: one trip through the `do` body (assignment pass followed by
the centroid update). -/
def iteration_d (points dimension k : Nat) (data : Nat → Nat → ℚ) (s : StateD) : StateD :=
  let a := assign_d points dimension k data s
  { a with
    centroids := update_centroids dimension k a.centroids_point_count a.centroids_temp a.centroids }

/-- Lines 76-122: the `do ... while (!has_converged)` loop; `it` is
`convergence_iterations`. -/
def loop_d (points dimension k : Nat) (data : Nat → Nat → ℚ) :
    Nat → StateD → Nat → Option (Nat × StateD)
  | 0, _, _ => none
  | fuel + 1, s, it =>
    let s1 := iteration_d points dimension k data s
    if s1.has_converged then some (it + 1, s1)
    else loop_d points dimension k data fuel s1 (it + 1)

/-- State of `k_means_d` on entry to the loop: `centroids` as left by
`initialize_centroids_double`, `centroids_temp` as returned by `malloc`, the
caller's `point_centroid_map`. -/
def init_d (centroids centroids_temp : Nat → Nat → ℚ) (point_centroid_map : Nat → Nat) :
    StateD :=
  { centroids := centroids
    centroids_temp := centroids_temp
    centroids_point_count := fun _ => 0
    point_centroid_map := point_centroid_map
    has_converged := true }

/-- Lines 64-129: `k_means_d`, returning `convergence_iterations` together with
the final contents of the buffer `point_centroid_map`. -/
def k_means_d (fuel points dimension k : Nat) (data centroids centroids_temp : Nat → Nat → ℚ)
    (point_centroid_map : Nat → Nat) : Option (Nat × List Nat) :=
  (loop_d points dimension k data fuel (init_d centroids centroids_temp point_centroid_map) 0).map
    (fun r => (r.1, buffer points r.2.point_centroid_map))

/-! ## `k_means_f` -/

/-- The value `UINT32_MAX`, the default of `settle_at` (`main.c`, line 85). -/
def UINT32_MAX : Nat := 4294967295

/-- The working state of `k_means_f`: that of `k_means_d` together with the
settle counters `niter_bound_centroid`. -/
structure StateF extends StateD where
  niter_bound_centroid : Nat → Nat

/-- Lines 179-183: the neighbour window `lb .. ub` around `pos` whose settle
counters are cleared, `for (it = lb; it <= ub; ++it) niter_bound_centroid[it] = 0`. -/
def reset_neighbours (points invalid_neighbours_up_to pos : Nat) (niter : Nat → Nat) :
    Nat → Nat :=
  let lb := if pos < invalid_neighbours_up_to then 0 else pos - invalid_neighbours_up_to
  let ub := if pos + invalid_neighbours_up_to > points - 1 then points - 1
            else pos + invalid_neighbours_up_to
  forLoop (ub + 1 - lb) (fun i n => store1 n (lb + i) 0) niter

/-- Lines 159-186: the part of the loop body that is jumped over by
`goto skip` when the settle counter of `pos` exceeds `settle_at`. -/
def search_f (points dimension k : Nat) (data : Nat → Nat → ℚ)
    (settle_at invalid_neighbours_up_to : Nat) (pos : Nat) (s : StateF) : StateF :=
  if s.niter_bound_centroid pos > settle_at then s
  else
    let chosen := centroid_chosen dimension k s.centroids data pos
    let s1 : StateF :=
      if s.point_centroid_map pos ≠ chosen then
        { s with
          has_converged := false
          niter_bound_centroid :=
            reset_neighbours points invalid_neighbours_up_to pos s.niter_bound_centroid }
      else s
    { s1 with point_centroid_map := store1 s1.point_centroid_map pos chosen }

/-- Lines 157-198: the body of the loop over the points, for one `pos`: the
search (unless skipped), then the code after the label `skip`. -/
def body_f (points dimension k : Nat) (data : Nat → Nat → ℚ)
    (settle_at invalid_neighbours_up_to : Nat) (pos : Nat) (s : StateF) : StateF :=
  let s1 := search_f points dimension k data settle_at invalid_neighbours_up_to pos s
  let niter := store1 s1.niter_bound_centroid pos ((s1.niter_bound_centroid pos + 1) % 2 ^ 32)
  let chosen := s1.point_centroid_map pos
  let count := store1 s1.centroids_point_count chosen (s1.centroids_point_count chosen + 1)
  { s1 with
    niter_bound_centroid := niter
    centroids_point_count := count
    centroids_temp := accumulate dimension data pos chosen count s1.centroids_temp }

/-- Lines 153-198: `memset` of the counts, `has_converged = true`, then the
loop over all points. -/
def assign_f (points dimension k : Nat) (data : Nat → Nat → ℚ)
    (settle_at invalid_neighbours_up_to : Nat) (s : StateF) : StateF :=
  forLoop points (body_f points dimension k data settle_at invalid_neighbours_up_to)
    { s with centroids_point_count := fun _ => 0, has_converged := true }

/-- Lines 153-207: one trip through the `do` body of `k_means_f`. -/
def iteration_f (points dimension k : Nat) (data : Nat → Nat → ℚ)
    (settle_at invalid_neighbours_up_to : Nat) (s : StateF) : StateF :=
  let a := assign_f points dimension k data settle_at invalid_neighbours_up_to s
  { a with
    centroids := update_centroids dimension k a.centroids_point_count a.centroids_temp a.centroids }

/-- Lines 146-209: the `do ... while (!has_converged)` loop of `k_means_f`. -/
def loop_f (points dimension k : Nat) (data : Nat → Nat → ℚ)
    (settle_at invalid_neighbours_up_to : Nat) :
    Nat → StateF → Nat → Option (Nat × StateF)
  | 0, _, _ => none
  | fuel + 1, s, it =>
    let s1 := iteration_f points dimension k data settle_at invalid_neighbours_up_to s
    if s1.has_converged then some (it + 1, s1)
    else loop_f points dimension k data settle_at invalid_neighbours_up_to fuel s1 (it + 1)

/-- State of `k_means_f` on entry to the loop; the settle counters come from
`calloc` and are all zero. -/
def init_f (centroids centroids_temp : Nat → Nat → ℚ) (point_centroid_map : Nat → Nat) :
    StateF :=
  { toStateD := init_d centroids centroids_temp point_centroid_map
    niter_bound_centroid := fun _ => 0 }

/-- Lines 134-217: `k_means_f` under the global parameters `settle_at` and
`invalid_neighbours_up_to`, returning `convergence_iterations` together with the
final contents of the buffer `point_centroid_map`. -/
def k_means_f (settle_at invalid_neighbours_up_to : Nat) (fuel points dimension k : Nat)
    (data centroids centroids_temp : Nat → Nat → ℚ) (point_centroid_map : Nat → Nat) :
    Option (Nat × List Nat) :=
  (loop_f points dimension k data settle_at invalid_neighbours_up_to fuel
      (init_f centroids centroids_temp point_centroid_map) 0).map
    (fun r => (r.1, buffer points r.2.point_centroid_map))

/-! ## Quantities used to state the properties -/

/-- The state after `n` trips through the `do` body of `k_means_d`. -/
def run_d (points dimension k : Nat) (data : Nat → Nat → ℚ) (n : Nat) (s : StateD) : StateD :=
  (iteration_d points dimension k data)^[n] s

/-- The state after `n` trips through the `do` body of `k_means_f`. -/
def run_f (points dimension k : Nat) (data : Nat → Nat → ℚ)
    (settle_at invalid_neighbours_up_to : Nat) (n : Nat) (s : StateF) : StateF :=
  (iteration_f points dimension k data settle_at invalid_neighbours_up_to)^[n] s

/-- The points among the first `n` that `map` sends to centroid `c`. -/
def members (n : Nat) (map : Nat → Nat) (c : Nat) : Finset Nat :=
  (Finset.range n).filter (fun p => map p = c)

/-- Within-cluster sum of squared distances of an assignment map and a
centroid set. -/
def objective (points dimension : Nat) (data centroids : Nat → Nat → ℚ)
    (map : Nat → Nat) : ℚ :=
  ∑ p in Finset.range points, distance_square dimension centroids data (map p) p

/-- The accumulators describe the first `n` points under `map`: every count
is the number of members, and every row of `centroids_temp` with a nonzero count
holds the coordinate sums of the members. -/
def AccInv (dimension : Nat) (data : Nat → Nat → ℚ) (n : Nat) (map count : Nat → Nat)
    (temp : Nat → Nat → ℚ) : Prop :=
  (∀ c, count c = (members n map c).card) ∧
  (∀ c dim, dim < dimension → count c ≠ 0 → temp c dim = ∑ p in members n map c, data p dim)

/-- Pass `n` is the first pass that changes no assignment: `n ≥ 1`, each of the
passes `1 .. n-1` changed the assignment of at least one of the `points` points,
and the map after pass `n` is the map held before it.  Here `maps i` is the
assignment map after `i` passes. -/
def ConvergedAt (points : Nat) (maps : Nat → Nat → Nat) (n : Nat) : Prop :=
  1 ≤ n ∧
  (∀ i, 1 ≤ i → i < n → ∃ p, p < points ∧ maps i p ≠ maps (i - 1) p) ∧
  maps n = maps (n - 1)

/-- The sum of the centroid identifiers recorded for the `points` points. -/
def id_sum (points : Nat) (map : Nat → Nat) : Nat :=
  ∑ p in Finset.range points, map p

/-- The pair (objective, sum of identifiers) of a state of `k_means_d`. -/
def potential (points dimension : Nat) (data : Nat → Nat → ℚ) (s : StateD) : ℚ × Nat :=
  (objective points dimension data s.centroids s.point_centroid_map,
    id_sum points s.point_centroid_map)

/-- Lexicographic decrease of a pair (objective, sum of identifiers). -/
def potential_lt (a b : ℚ × Nat) : Prop :=
  a.1 < b.1 ∨ (a.1 = b.1 ∧ a.2 < b.2)

/-! ## Concrete inputs -/

/-- Four one-dimensional points `0, 1, 2, 3`. -/
def line4 : Nat → Nat → ℚ := fun p _ => (p : ℚ)

/-- Initial centroids `0` and `1` (the first two points of `line4`). -/
def line4_centroids : Nat → Nat → ℚ := fun c _ => (c : ℚ)

/-- The six two-dimensional points `(0,0),(0,1),(1,0),(10,10),(10,11),(11,10)`. -/
def six_points : Nat → Nat → ℚ := fun p d =>
  match p, d with
  | 1, 1 => 1
  | 2, 0 => 1
  | 3, 0 => 10
  | 3, 1 => 10
  | 4, 0 => 10
  | 4, 1 => 11
  | 5, 0 => 11
  | 5, 1 => 10
  | _, _ => 0

/-- Initial centroids `(0,0)` and `(10,10)`. -/
def six_centroids : Nat → Nat → ℚ := fun c _ => if c = 1 then 10 else 0

/-- Two one-dimensional points `0` and `2`. -/
def two_points : Nat → Nat → ℚ := fun p _ => 2 * (p : ℚ)

/-- An all-zero buffer, as returned by `calloc`. -/
def zero_map : Nat → Nat := fun _ => 0

/-- An all-zero coordinate table. -/
def zero_table : Nat → Nat → ℚ := fun _ _ => 0

/-- A state of `k_means_f` on `line4` in which every settle counter is `7`. -/
def line4_settled : StateF :=
  { init_f line4_centroids zero_table zero_map with niter_bound_centroid := fun _ => 7 }

/-! ## The arithmetic of the element type -/

/-- The operations that `k_means_f` applies to values of its element type:
the literal `0.f`, `-`, `*`, `+`, `/`, the conversion `(float)count` of a
`size_t`, the comparison `<` of two values, and the comparison of a value with
`HUGE_VALF`. -/
structure Arith (F : Type) where
  zero : F
  sub : F → F → F
  mul : F → F → F
  add : F → F → F
  div : F → F → F
  of_count : Nat → F
  lt : F → F → Bool
  lt_huge : F → Bool

/-- Exact rational arithmetic; every rational is below `HUGE_VAL`. -/
def exact_arith : Arith ℚ :=
  { zero := 0
    sub := fun a b => a - b
    mul := fun a b => a * b
    add := fun a b => a + b
    div := fun a b => a / b
    of_count := fun n => (n : ℚ)
    lt := fun a b => decide (a < b)
    lt_huge := fun _ => true }

/-- Values of an IEEE 754 binary format: the finite values, by their exact
rational value (the two zeros are one value), the two infinities and NaN. -/
inductive Fl where
  | fin (q : ℚ)
  | pinf
  | ninf
  | nan
  deriving DecidableEq

/-- The rational `2 ^ e`. -/
def pow2 (e : ℤ) : ℚ :=
  if 0 ≤ e then ((2 ^ e.toNat : Nat) : ℚ) else 1 / ((2 ^ (-e).toNat : Nat) : ℚ)

/-- Position of the leading binary digit of `n`, by halving at most `fuel`
times. -/
def log2_fuel : Nat → Nat → Nat
  | 0, _ => 0
  | fuel + 1, n => if n < 2 then 0 else log2_fuel fuel (n / 2) + 1

/-- Position of the leading binary digit of `n ≥ 1`: `2 ^ nat_log2 n ≤ n`. -/
def nat_log2 (n : Nat) : Nat := log2_fuel n n

/-- The exponent `e` with `2 ^ e ≤ |q| < 2 ^ (e + 1)`, for `q ≠ 0`. -/
def ilog2 (q : ℚ) : ℤ :=
  let e0 : ℤ := (nat_log2 q.num.natAbs : ℤ) - (nat_log2 q.den : ℤ)
  if pow2 e0 ≤ |q| then e0 else e0 - 1

/-- The integer nearest to `x ≥ 0`, the even one of the two when `x` lies
halfway. -/
def round_half_even (x : ℚ) : ℤ :=
  let f := ⌊x⌋
  let r := x - (f : ℚ)
  if r < 1 / 2 then f
  else if 1 / 2 < r then f + 1
  else if f % 2 = 0 then f
  else f + 1

/-- Rounding of the exact result `q` of an operation into the binary format
with `prec` significand bits and largest exponent `emax` (binary32: 24 and 127),
in the default mode round-to-nearest, ties to even: the result is a multiple of
the spacing `2 ^ (e - (prec - 1))` of the format at `q`, where the exponent `e`
is not taken below `1 - emax` (subnormal range), and a rounded magnitude of
`2 ^ (emax + 1)` or more becomes an infinity. -/
def Fl.round (prec emax : Nat) (q : ℚ) : Fl :=
  if q = 0 then Fl.fin 0
  else
    let e := max (ilog2 q) (1 - (emax : ℤ))
    let quantum := pow2 (e - ((prec : ℤ) - 1))
    let r := (round_half_even (|q| / quantum) : ℚ) * quantum
    if pow2 ((emax : ℤ) + 1) ≤ r then (if 0 < q then Fl.pinf else Fl.ninf)
    else Fl.fin (if 0 < q then r else -r)

/-- Negation. -/
def Fl.neg : Fl → Fl
  | Fl.fin a => Fl.fin (-a)
  | Fl.pinf => Fl.ninf
  | Fl.ninf => Fl.pinf
  | Fl.nan => Fl.nan

/-- IEEE addition: the exact sum, rounded; opposite infinities give NaN. -/
def Fl.add (prec emax : Nat) : Fl → Fl → Fl
  | Fl.fin a, Fl.fin b => Fl.round prec emax (a + b)
  | Fl.fin _, Fl.pinf => Fl.pinf
  | Fl.fin _, Fl.ninf => Fl.ninf
  | Fl.pinf, Fl.fin _ => Fl.pinf
  | Fl.pinf, Fl.pinf => Fl.pinf
  | Fl.ninf, Fl.fin _ => Fl.ninf
  | Fl.ninf, Fl.ninf => Fl.ninf
  | _, _ => Fl.nan

/-- IEEE subtraction. -/
def Fl.sub (prec emax : Nat) (a b : Fl) : Fl :=
  Fl.add prec emax a (Fl.neg b)

/-- IEEE multiplication: the exact product, rounded; zero times an infinity
gives NaN. -/
def Fl.mul (prec emax : Nat) : Fl → Fl → Fl
  | Fl.fin a, Fl.fin b => Fl.round prec emax (a * b)
  | Fl.fin a, Fl.pinf => if a = 0 then Fl.nan else if 0 < a then Fl.pinf else Fl.ninf
  | Fl.fin a, Fl.ninf => if a = 0 then Fl.nan else if 0 < a then Fl.ninf else Fl.pinf
  | Fl.pinf, Fl.fin b => if b = 0 then Fl.nan else if 0 < b then Fl.pinf else Fl.ninf
  | Fl.ninf, Fl.fin b => if b = 0 then Fl.nan else if 0 < b then Fl.ninf else Fl.pinf
  | Fl.pinf, Fl.pinf => Fl.pinf
  | Fl.ninf, Fl.ninf => Fl.pinf
  | Fl.pinf, Fl.ninf => Fl.ninf
  | Fl.ninf, Fl.pinf => Fl.ninf
  | _, _ => Fl.nan

/-- IEEE division: the exact quotient, rounded.  The routines divide by a
converted count of at least one only; a zero divisor is taken as `+0`. -/
def Fl.div (prec emax : Nat) : Fl → Fl → Fl
  | Fl.fin a, Fl.fin b =>
    if b = 0 then (if a = 0 then Fl.nan else if 0 < a then Fl.pinf else Fl.ninf)
    else Fl.round prec emax (a / b)
  | Fl.fin _, Fl.pinf => Fl.fin 0
  | Fl.fin _, Fl.ninf => Fl.fin 0
  | Fl.pinf, Fl.fin b => if 0 ≤ b then Fl.pinf else Fl.ninf
  | Fl.ninf, Fl.fin b => if 0 ≤ b then Fl.ninf else Fl.pinf
  | _, _ => Fl.nan

/-- IEEE comparison `<`: false as soon as one side is NaN. -/
def Fl.lt : Fl → Fl → Bool
  | Fl.fin a, Fl.fin b => decide (a < b)
  | Fl.fin _, Fl.pinf => true
  | Fl.ninf, Fl.fin _ => true
  | Fl.ninf, Fl.pinf => true
  | _, _ => false

/-- The arithmetic of an IEEE 754 binary format; `HUGE_VAL` is `+∞`. -/
def ieee (prec emax : Nat) : Arith Fl :=
  { zero := Fl.fin 0
    sub := Fl.sub prec emax
    mul := Fl.mul prec emax
    add := Fl.add prec emax
    div := Fl.div prec emax
    of_count := fun n => Fl.round prec emax (n : ℚ)
    lt := Fl.lt
    lt_huge := fun d => Fl.lt d Fl.pinf }

/-- The arithmetic of `float` (binary32), each operation of the C source
evaluated and rounded in `float`. -/
def float_arith : Arith Fl := ieee 24 127

/-- The table of `float` values whose exact values are `t`. -/
def to_float (t : Nat → Nat → ℚ) : Nat → Nat → Fl :=
  fun i j => Fl.fin (t i j)

/-! ## `k_means_f` over an arbitrary arithmetic -/

/-- Comparison `distance_square < closest_centroid` (line 171); `none` stands for
the initial value `HUGE_VALF`. -/
def lt_closest_in {F : Type} (A : Arith F) (d : F) : Option F → Bool
  | none => A.lt_huge d
  | some c => A.lt d c

/-- Lines 166-170 over the arithmetic `A`: `distance_square = 0.f`, then for
every dimension
`distance_square += (centroids[centro][dim] - data[pos][dim]) * (...)`. -/
def distance_square_in {F : Type} (A : Arith F) (dimension : Nat) (centroids data : Nat → Nat → F)
    (centro pos : Nat) : F :=
  forLoop dimension
    (fun dim acc =>
      A.add acc (A.mul (A.sub (centroids centro dim) (data pos dim))
        (A.sub (centroids centro dim) (data pos dim))))
    A.zero

/-- Lines 162-175 over the arithmetic `A`: the scan over the centroids from
`(centroid_chosen, closest_centroid) = (0, HUGE_VALF)`. -/
def find_closest_in {F : Type} (A : Arith F) (dimension k : Nat) (centroids data : Nat → Nat → F)
    (pos : Nat) : Nat × Option F :=
  forLoop k
    (fun centro st =>
      let d := distance_square_in A dimension centroids data centro pos
      if lt_closest_in A d st.2 then (centro, some d) else st)
    (0, none)

/-- The value of `centroid_chosen` after the scan, over the arithmetic `A`. -/
def centroid_chosen_in {F : Type} (A : Arith F) (dimension k : Nat)
    (centroids data : Nat → Nat → F) (pos : Nat) : Nat :=
  (find_closest_in A dimension k centroids data pos).1

/-- Lines 192-197 over the arithmetic `A`: overwrite on the first member, `+=`
afterwards. -/
def accumulate_in {F : Type} (A : Arith F) (dimension : Nat) (data : Nat → Nat → F)
    (pos chosen : Nat) (count : Nat → Nat) (temp : Nat → Nat → F) : Nat → Nat → F :=
  if count chosen = 1 then
    forLoop dimension (fun dim t => store2 t chosen dim (data pos dim)) temp
  else
    forLoop dimension (fun dim t => store2 t chosen dim (A.add (t chosen dim) (data pos dim))) temp

/-- Lines 200-206 over the arithmetic `A`:
`centroids[centro][dim] = centroids_temp[centro][dim] / (float)count`. -/
def update_centroids_in {F : Type} (A : Arith F) (dimension k : Nat) (count : Nat → Nat)
    (temp centroids : Nat → Nat → F) : Nat → Nat → F :=
  forLoop k
    (fun centro c =>
      if count centro ≠ 0 then
        forLoop dimension
          (fun dim c => store2 c centro dim (A.div (temp centro dim) (A.of_count (count centro))))
          c
      else c)
    centroids

/-- The working state of `k_means_f` with element type `F`. -/
structure StateF_in (F : Type) where
  centroids : Nat → Nat → F
  centroids_temp : Nat → Nat → F
  centroids_point_count : Nat → Nat
  point_centroid_map : Nat → Nat
  has_converged : Bool
  niter_bound_centroid : Nat → Nat

/-- Lines 159-186 over the arithmetic `A`: the part of the loop body jumped over
by `goto skip`. -/
def search_f_in {F : Type} (A : Arith F) (points dimension k : Nat) (data : Nat → Nat → F)
    (settle_at invalid_neighbours_up_to : Nat) (pos : Nat) (s : StateF_in F) : StateF_in F :=
  if s.niter_bound_centroid pos > settle_at then s
  else
    let chosen := centroid_chosen_in A dimension k s.centroids data pos
    let s1 : StateF_in F :=
      if s.point_centroid_map pos ≠ chosen then
        { s with
          has_converged := false
          niter_bound_centroid :=
            reset_neighbours points invalid_neighbours_up_to pos s.niter_bound_centroid }
      else s
    { s1 with point_centroid_map := store1 s1.point_centroid_map pos chosen }

/-- Lines 157-198 over the arithmetic `A`: the loop body for one `pos`. -/
def body_f_in {F : Type} (A : Arith F) (points dimension k : Nat) (data : Nat → Nat → F)
    (settle_at invalid_neighbours_up_to : Nat) (pos : Nat) (s : StateF_in F) : StateF_in F :=
  let s1 := search_f_in A points dimension k data settle_at invalid_neighbours_up_to pos s
  let niter := store1 s1.niter_bound_centroid pos ((s1.niter_bound_centroid pos + 1) % 2 ^ 32)
  let chosen := s1.point_centroid_map pos
  let count := store1 s1.centroids_point_count chosen (s1.centroids_point_count chosen + 1)
  { s1 with
    niter_bound_centroid := niter
    centroids_point_count := count
    centroids_temp := accumulate_in A dimension data pos chosen count s1.centroids_temp }

/-- Lines 153-198 over the arithmetic `A`: `memset` of the counts,
`has_converged = true`, then the loop over all points. -/
def assign_f_in {F : Type} (A : Arith F) (points dimension k : Nat) (data : Nat → Nat → F)
    (settle_at invalid_neighbours_up_to : Nat) (s : StateF_in F) : StateF_in F :=
  forLoop points (body_f_in A points dimension k data settle_at invalid_neighbours_up_to)
    { s with centroids_point_count := fun _ => 0, has_converged := true }

/-- Lines 153-207 over the arithmetic `A`: one trip through the `do` body. -/
def iteration_f_in {F : Type} (A : Arith F) (points dimension k : Nat) (data : Nat → Nat → F)
    (settle_at invalid_neighbours_up_to : Nat) (s : StateF_in F) : StateF_in F :=
  let a := assign_f_in A points dimension k data settle_at invalid_neighbours_up_to s
  { a with
    centroids :=
      update_centroids_in A dimension k a.centroids_point_count a.centroids_temp a.centroids }

/-- Lines 146-209 over the arithmetic `A`: the `do ... while (!has_converged)`
loop, driven by fuel. -/
def loop_f_in {F : Type} (A : Arith F) (points dimension k : Nat) (data : Nat → Nat → F)
    (settle_at invalid_neighbours_up_to : Nat) :
    Nat → StateF_in F → Nat → Option (Nat × StateF_in F)
  | 0, _, _ => none
  | fuel + 1, s, it =>
    let s1 := iteration_f_in A points dimension k data settle_at invalid_neighbours_up_to s
    if s1.has_converged then some (it + 1, s1)
    else loop_f_in A points dimension k data settle_at invalid_neighbours_up_to fuel s1 (it + 1)

/-- State of `k_means_f` on entry to the loop, with element type `F`. -/
def init_f_in {F : Type} (centroids centroids_temp : Nat → Nat → F)
    (point_centroid_map : Nat → Nat) : StateF_in F :=
  { centroids := centroids
    centroids_temp := centroids_temp
    centroids_point_count := fun _ => 0
    point_centroid_map := point_centroid_map
    has_converged := true
    niter_bound_centroid := fun _ => 0 }

/-- Lines 134-217 over the arithmetic `A`: `k_means_f`, returning
`convergence_iterations` and the final buffer `point_centroid_map`. -/
def k_means_f_in {F : Type} (A : Arith F) (settle_at invalid_neighbours_up_to : Nat)
    (fuel points dimension k : Nat) (data centroids centroids_temp : Nat → Nat → F)
    (point_centroid_map : Nat → Nat) : Option (Nat × List Nat) :=
  (loop_f_in A points dimension k data settle_at invalid_neighbours_up_to fuel
      (init_f_in centroids centroids_temp point_centroid_map) 0).map
    (fun r => (r.1, buffer points r.2.point_centroid_map))

/-- A state over the rationals read as a state of the exact embedding. -/
def StateF_in.to_exact (s : StateF_in ℚ) : StateF :=
  { centroids := s.centroids
    centroids_temp := s.centroids_temp
    centroids_point_count := s.centroids_point_count
    point_centroid_map := s.point_centroid_map
    has_converged := s.has_converged
    niter_bound_centroid := s.niter_bound_centroid }

/-! ## Concrete `float` inputs -/

/-- Three one-dimensional points `0, 1, 2^25`. -/
def far3 : Nat → Nat → ℚ := fun p _ => if p = 2 then 33554432 else (p : ℚ)

theorem forLoop_succ {σ : Type} (n : Nat) (body : Nat → σ → σ) (s : σ) :
    forLoop (n + 1) body s = body n (forLoop n body s) := rfl

/-- Loop-invariant rule for `forLoop`. -/
theorem forLoop_invariant {σ : Type} (P : Nat → σ → Prop) (body : Nat → σ → σ) (s : σ)
    (N : Nat) (h0 : P 0 s) (hstep : ∀ n, n < N → ∀ t, P n t → P (n + 1) (body n t)) :
    P N (forLoop N body s) := by
  have key : ∀ m, m ≤ N → P m (forLoop m body s) := by
    intro m
    induction m with
    | zero => intro _; exact h0
    | succ m ih =>
      intro hm
      exact hstep m (by omega) _ (ih (by omega))
  exact key N le_rfl

@[simp] theorem store1_apply {α : Type} (a : Nat → α) (i : Nat) (v : α) (x : Nat) :
    store1 a i v x = if x = i then v else a x := rfl

@[simp] theorem store2_apply {α : Type} (a : Nat → Nat → α) (i j : Nat) (v : α) (x y : Nat) :
    store2 a i j v x y = if x = i ∧ y = j then v else a x y := rfl

theorem forLoop_store2_set (d c : Nat) (v : Nat → ℚ) (t : Nat → Nat → ℚ) :
    forLoop d (fun dim t => store2 t c dim (v dim)) t
      = fun x y => if x = c ∧ y < d then v y else t x y := by
  induction d with
  | zero => funext x y; simp [forLoop]
  | succ d ih =>
    rw [forLoop_succ, ih]
    funext x y
    simp only [store2_apply]
    by_cases hx : x = c
    · by_cases hy : y = d
      · subst hy; simp [hx]
      · have : (y < d + 1) ↔ (y < d) := by omega
        simp [hx, hy, this]
    · simp [hx]

theorem forLoop_store2_add (d c : Nat) (v : Nat → ℚ) (t : Nat → Nat → ℚ) :
    forLoop d (fun dim t => store2 t c dim (t c dim + v dim)) t
      = fun x y => if x = c ∧ y < d then t x y + v y else t x y := by
  induction d with
  | zero => funext x y; simp [forLoop]
  | succ d ih =>
    rw [forLoop_succ, ih]
    funext x y
    simp only [store2_apply]
    by_cases hx : x = c
    · by_cases hy : y = d
      · subst hy; simp [hx]
      · have : (y < d + 1) ↔ (y < d) := by omega
        simp [hx, hy, this]
    · simp [hx]

/-- Closed form of the fused accumulation. -/
theorem accumulate_apply (dimension : Nat) (data : Nat → Nat → ℚ) (pos chosen : Nat)
    (count : Nat → Nat) (temp : Nat → Nat → ℚ) (c dim : Nat) :
    accumulate dimension data pos chosen count temp c dim
      = if c = chosen ∧ dim < dimension then
          (if count chosen = 1 then data pos dim else temp c dim + data pos dim)
        else temp c dim := by
  unfold accumulate
  by_cases h1 : count chosen = 1
  · simp only [h1, if_true, forLoop_store2_set]
  · simp only [h1, if_false, forLoop_store2_add]

/-- Closed form of the centroid update. -/
theorem update_centroids_apply (dimension k : Nat) (count : Nat → Nat)
    (temp centroids : Nat → Nat → ℚ) (c dim : Nat) :
    update_centroids dimension k count temp centroids c dim
      = if c < k ∧ count c ≠ 0 ∧ dim < dimension then temp c dim / (count c : ℚ)
        else centroids c dim := by
  unfold update_centroids
  induction k with
  | zero => simp [forLoop]
  | succ k ih =>
    rw [forLoop_succ]
    by_cases hk : count k ≠ 0
    · simp only [hk, if_true, ne_eq, not_false_eq_true]
      rw [forLoop_store2_set dimension k (fun dim => temp k dim / (count k : ℚ))]
      simp only [ih]
      by_cases hc : c = k
      · subst hc
        by_cases hd : dim < dimension
        · simp [hd, hk]
        · simp [hd]
      · have : (c < k + 1) ↔ (c < k) := by omega
        simp [hc, this]
    · simp only [hk, if_false]
      rw [ih]
      by_cases hc : c = k
      · subst hc; simp [hk]
      · have : (c < k + 1) ↔ (c < k) := by omega
        simp [hc, this]

/-- The accumulated squared distance is the sum of the squared coordinate
differences. -/
theorem distance_square_eq_sum (dimension : Nat) (centroids data : Nat → Nat → ℚ)
    (centro pos : Nat) :
    distance_square dimension centroids data centro pos
      = ∑ dim in Finset.range dimension, (centroids centro dim - data pos dim) ^ 2 := by
  unfold distance_square
  induction dimension with
  | zero => simp [forLoop]
  | succ d ih => rw [forLoop_succ, ih, Finset.sum_range_succ, sq]

/-! ## The nearest-centroid scan -/

/-- Invariant of the scan over the centroids after `n + 1` of them have been
examined. -/
theorem find_closest_spec (dimension : Nat) (centroids data : Nat → Nat → ℚ)
    (pos n : Nat) :
    let r := find_closest dimension (n + 1) centroids data pos
    r.1 < n + 1 ∧
    r.2 = some (distance_square dimension centroids data r.1 pos) ∧
    (∀ j, j < n + 1 → distance_square dimension centroids data r.1 pos
        ≤ distance_square dimension centroids data j pos) ∧
    (∀ j, j < r.1 → distance_square dimension centroids data r.1 pos
        < distance_square dimension centroids data j pos) := by
  induction n with
  | zero =>
    simp [find_closest, forLoop, lt_closest]
  | succ n ih =>
    have hstep : find_closest dimension (n + 1 + 1) centroids data pos
        = (let st := find_closest dimension (n + 1) centroids data pos
           let d := distance_square dimension centroids data (n + 1) pos
           if lt_closest d st.2 then (n + 1, some d) else st) := rfl
    obtain ⟨h1, h2, h3, h4⟩ := ih
    simp only [hstep]
    rw [h2]
    simp only [lt_closest]
    by_cases hlt : distance_square dimension centroids data (n + 1) pos
        < distance_square dimension centroids data
            (find_closest dimension (n + 1) centroids data pos).1 pos
    · simp only [hlt, decide_True, if_true]
      refine ⟨by omega, trivial, ?_, ?_⟩
      · intro j hj
        by_cases hjn : j = n + 1
        · subst hjn; exact le_rfl
        · exact le_of_lt (lt_of_lt_of_le hlt (h3 j (by omega)))
      · intro j hj
        exact lt_of_lt_of_le hlt (h3 j (by omega))
    · simp only [hlt, decide_False, if_false, Bool.false_eq_true]
      refine ⟨by omega, h2, ?_, h4⟩
      intro j hj
      by_cases hjn : j = n + 1
      · subst hjn; exact not_lt.mp hlt
      · exact h3 j (by omega)

/-! ## The accumulators -/

theorem members_succ (n : Nat) (map : Nat → Nat) (c : Nat) :
    members (n + 1) map c
      = if map n = c then insert n (members n map c) else members n map c := by
  unfold members
  rw [Finset.range_succ, Finset.filter_insert]

theorem members_congr (n : Nat) (map map1 : Nat → Nat) (c : Nat)
    (h : ∀ p, p < n → map1 p = map p) : members n map1 c = members n map c := by
  unfold members
  apply Finset.filter_congr
  intro p hp
  rw [h p (Finset.mem_range.mp hp)]

theorem not_mem_members (n : Nat) (map : Nat → Nat) (c : Nat) : n ∉ members n map c := by
  simp [members]

/-- One accumulation step (count increment and fused sum) extends the
accumulator invariant from the first `n` to the first `n + 1` points. -/
theorem AccInv_step (dimension : Nat) (data : Nat → Nat → ℚ) (n : Nat)
    (map map1 count : Nat → Nat) (temp : Nat → Nat → ℚ)
    (hinv : AccInv dimension data n map count temp)
    (hmap : ∀ p, p < n → map1 p = map p) :
    AccInv dimension data (n + 1) map1
      (store1 count (map1 n) (count (map1 n) + 1))
      (accumulate dimension data n (map1 n)
        (store1 count (map1 n) (count (map1 n) + 1)) temp) := by
  obtain ⟨hcount, htemp⟩ := hinv
  have hmem : ∀ c, members (n + 1) map1 c
      = if map1 n = c then insert n (members n map c) else members n map c := by
    intro c
    rw [members_succ, members_congr n map map1 c hmap]
  refine ⟨?_, ?_⟩
  · intro c
    rw [hmem c, store1_apply]
    by_cases hc : c = map1 n
    · subst hc
      simp only [if_true]
      rw [Finset.card_insert_of_not_mem (not_mem_members n map _), hcount]
    · have hc2 : ¬ map1 n = c := fun h => hc h.symm
      simp only [hc, hc2, if_false]
      exact hcount c
  · intro c dim hdim hne
    rw [hmem c, accumulate_apply]
    by_cases hc : c = map1 n
    · subst hc
      simp only [store1_apply, if_true, hdim, and_self]
      rw [Finset.sum_insert (not_mem_members n map _)]
      by_cases h0 : count (map1 n) = 0
      · have hempty : members n map (map1 n) = ∅ := by
          rw [← Finset.card_eq_zero, ← hcount, h0]
        simp [h0, hempty]
      · have h1 : ¬ count (map1 n) + 1 = 1 := by omega
        simp only [h1, if_false]
        rw [htemp _ dim hdim h0, add_comm]
    · have hc2 : ¬ map1 n = c := fun h => hc h.symm
      simp only [hc, hc2, false_and, if_false]
      rw [store1_apply] at hne
      simp only [hc, if_false] at hne
      exact htemp c dim hdim hne

theorem AccInv_zero (dimension : Nat) (data : Nat → Nat → ℚ) (map : Nat → Nat)
    (temp : Nat → Nat → ℚ) : AccInv dimension data 0 map (fun _ => 0) temp := by
  refine ⟨?_, ?_⟩
  · intro c; simp [members]
  · intro c dim _ h; exact absurd rfl h

/-! ## The assignment pass of `k_means_d` -/

/-- What the assignment pass of `k_means_d` has established after the first `n`
points. -/
theorem assign_d_invariant (dimension k : Nat) (data : Nat → Nat → ℚ) (s0 : StateD) (n : Nat) :
    let s := forLoop n (body_d dimension k data)
      { s0 with centroids_point_count := fun _ => 0, has_converged := true }
    s.centroids = s0.centroids ∧
    (∀ p, s.point_centroid_map p
      = if p < n then centroid_chosen dimension k s0.centroids data p
        else s0.point_centroid_map p) ∧
    (s.has_converged = true ↔
      ∀ p, p < n → s0.point_centroid_map p = centroid_chosen dimension k s0.centroids data p) ∧
    AccInv dimension data n s.point_centroid_map s.centroids_point_count s.centroids_temp := by
  induction n with
  | zero =>
    refine ⟨rfl, ?_, ?_, ?_⟩
    · intro p; simp [forLoop]
    · simp [forLoop]
    · exact AccInv_zero _ _ _ _
  | succ n ih =>
    obtain ⟨hc, hm, hconv, hacc⟩ := ih
    simp only [forLoop_succ]
    generalize forLoop n (body_d dimension k data)
      { s0 with centroids_point_count := fun _ => 0, has_converged := true } = s at hc hm hconv hacc
    have hmn : s.point_centroid_map n = s0.point_centroid_map n := by
      rw [hm n]; simp
    refine ⟨hc, ?_, ?_, ?_⟩
    · intro p
      simp only [body_d, store1_apply, hc]
      by_cases hp : p = n
      · subst hp; simp
      · have : (p < n + 1) ↔ (p < n) := by omega
        simp only [hp, if_false, this]
        exact hm p
    · simp only [body_d, hc, hmn]
      by_cases hch : s0.point_centroid_map n = centroid_chosen dimension k s0.centroids data n
      · simp only [hch, ne_eq, not_true_eq_false, if_false, hconv]
        constructor
        · intro h p hp
          by_cases hpn : p = n
          · subst hpn; exact hch
          · exact h p (by omega)
        · intro h p hp
          exact h p (by omega)
      · simp only [ne_eq, hch, not_false_eq_true, if_true]
        constructor
        · intro h; exact absurd h (by simp)
        · intro h; exact absurd (h n (by omega)) hch
    · have hstep := AccInv_step dimension data n s.point_centroid_map
        (store1 s.point_centroid_map n (centroid_chosen dimension k s.centroids data n))
        s.centroids_point_count s.centroids_temp hacc
        (by intro p hp; simp [store1_apply, Nat.ne_of_lt hp])
      simpa [body_d] using hstep

/-- Summary of one assignment pass of `k_means_d`. -/
theorem assign_d_spec (points dimension k : Nat) (data : Nat → Nat → ℚ) (s : StateD) :
    (assign_d points dimension k data s).centroids = s.centroids ∧
    (∀ p, (assign_d points dimension k data s).point_centroid_map p
      = if p < points then centroid_chosen dimension k s.centroids data p
        else s.point_centroid_map p) ∧
    ((assign_d points dimension k data s).has_converged = true ↔
      ∀ p, p < points → s.point_centroid_map p = centroid_chosen dimension k s.centroids data p) ∧
    AccInv dimension data points (assign_d points dimension k data s).point_centroid_map
      (assign_d points dimension k data s).centroids_point_count
      (assign_d points dimension k data s).centroids_temp :=
  assign_d_invariant dimension k data s points

theorem iteration_d_map (points dimension k : Nat) (data : Nat → Nat → ℚ) (s : StateD) (p : Nat) :
    (iteration_d points dimension k data s).point_centroid_map p
      = if p < points then centroid_chosen dimension k s.centroids data p
        else s.point_centroid_map p :=
  (assign_d_spec points dimension k data s).2.1 p

theorem iteration_d_converged (points dimension k : Nat) (data : Nat → Nat → ℚ) (s : StateD) :
    (iteration_d points dimension k data s).has_converged = true ↔
      ∀ p, p < points → s.point_centroid_map p = centroid_chosen dimension k s.centroids data p :=
  (assign_d_spec points dimension k data s).2.2.1

theorem iteration_d_acc (points dimension k : Nat) (data : Nat → Nat → ℚ) (s : StateD) :
    AccInv dimension data points (iteration_d points dimension k data s).point_centroid_map
      (iteration_d points dimension k data s).centroids_point_count
      (iteration_d points dimension k data s).centroids_temp :=
  (assign_d_spec points dimension k data s).2.2.2

theorem iteration_d_centroids (points dimension k : Nat) (data : Nat → Nat → ℚ) (s : StateD)
    (c dim : Nat) :
    (iteration_d points dimension k data s).centroids c dim
      = if c < k ∧ (iteration_d points dimension k data s).centroids_point_count c ≠ 0
            ∧ dim < dimension then
          (iteration_d points dimension k data s).centroids_temp c dim
            / ((iteration_d points dimension k data s).centroids_point_count c : ℚ)
        else s.centroids c dim := by
  show update_centroids dimension k _ _ _ c dim = _
  rw [update_centroids_apply, (assign_d_spec points dimension k data s).1]
  rfl

/-! ## The assignment pass of `k_means_f` -/

/-- Effect of the skippable search on everything but the settle counters. -/
theorem search_f_spec (points dimension k : Nat) (data : Nat → Nat → ℚ)
    (settle_at r n : Nat) (s : StateF) :
    let s1 := search_f points dimension k data settle_at r n s
    s1.centroids = s.centroids ∧
    s1.centroids_point_count = s.centroids_point_count ∧
    s1.centroids_temp = s.centroids_temp ∧
    (∀ p, p ≠ n → s1.point_centroid_map p = s.point_centroid_map p) ∧
    (s1.has_converged = true ↔
      (s.has_converged = true ∧ s1.point_centroid_map n = s.point_centroid_map n)) := by
  simp only [search_f]
  by_cases hskip : s.niter_bound_centroid n > settle_at
  · rw [if_pos hskip]
    exact ⟨rfl, rfl, rfl, fun _ _ => rfl, by simp⟩
  · rw [if_neg hskip]
    by_cases hch : s.point_centroid_map n = centroid_chosen dimension k s.centroids data n
    · rw [if_neg (by simpa using hch)]
      refine ⟨rfl, rfl, rfl, ?_, ?_⟩
      · intro p hp; simp [hp]
      · simp [hch]
    · rw [if_pos hch]
      have hch2 : ¬ centroid_chosen dimension k s.centroids data n = s.point_centroid_map n :=
        fun h => hch h.symm
      refine ⟨rfl, rfl, rfl, ?_, ?_⟩
      · intro p hp; simp [hp]
      · simp [hch2]

/-- Effect of one trip through the loop body of `k_means_f` on everything but
the settle counters. -/
theorem body_f_spec (points dimension k : Nat) (data : Nat → Nat → ℚ)
    (settle_at r n : Nat) (s : StateF) :
    let s1 := body_f points dimension k data settle_at r n s
    s1.centroids = s.centroids ∧
    (∀ p, p ≠ n → s1.point_centroid_map p = s.point_centroid_map p) ∧
    (s1.has_converged = true ↔
      (s.has_converged = true ∧ s1.point_centroid_map n = s.point_centroid_map n)) ∧
    s1.centroids_point_count
      = store1 s.centroids_point_count (s1.point_centroid_map n)
          (s.centroids_point_count (s1.point_centroid_map n) + 1) ∧
    s1.centroids_temp
      = accumulate dimension data n (s1.point_centroid_map n) s1.centroids_point_count
          s.centroids_temp := by
  obtain ⟨h1, h2, h3, h4, h5⟩ := search_f_spec points dimension k data settle_at r n s
  simp only [body_f]
  refine ⟨h1, h4, h5, ?_, ?_⟩
  · rw [h2]
  · rw [h2, h3]

/-- What the assignment pass of `k_means_f` has established after the first `n`
points, for every content of the settle counters. -/
theorem assign_f_invariant (points dimension k : Nat) (data : Nat → Nat → ℚ)
    (settle_at r : Nat) (s0 : StateF) (n : Nat) :
    let s := forLoop n (body_f points dimension k data settle_at r)
      { s0 with centroids_point_count := fun _ => 0, has_converged := true }
    s.centroids = s0.centroids ∧
    (∀ p, n ≤ p → s.point_centroid_map p = s0.point_centroid_map p) ∧
    (s.has_converged = true ↔
      ∀ p, p < n → s.point_centroid_map p = s0.point_centroid_map p) ∧
    AccInv dimension data n s.point_centroid_map s.centroids_point_count s.centroids_temp := by
  induction n with
  | zero =>
    refine ⟨rfl, ?_, ?_, ?_⟩
    · intro p _; rfl
    · simp [forLoop]
    · exact AccInv_zero _ _ _ _
  | succ n ih =>
    obtain ⟨hc, hm, hconv, hacc⟩ := ih
    simp only [forLoop_succ]
    generalize forLoop n (body_f points dimension k data settle_at r)
      { s0 with centroids_point_count := fun _ => 0, has_converged := true } = s at hc hm hconv hacc
    obtain ⟨b1, b2, b3, b4, b5⟩ := body_f_spec points dimension k data settle_at r n s
    refine ⟨by rw [b1, hc], ?_, ?_, ?_⟩
    · intro p hp
      rw [b2 p (by omega), hm p (by omega)]
    · rw [b3, hconv, hm n le_rfl]
      constructor
      · rintro ⟨h, hn⟩ p hp
        by_cases hpn : p = n
        · subst hpn; exact hn
        · rw [b2 p hpn]; exact h p (by omega)
      · intro h
        refine ⟨?_, h n (by omega)⟩
        intro p hp
        rw [← b2 p (by omega)]; exact h p (by omega)
    · rw [b5, b4]
      exact AccInv_step dimension data n s.point_centroid_map _ s.centroids_point_count
        s.centroids_temp hacc (fun p hp => b2 p (by omega))

theorem iteration_f_map_ge (points dimension k : Nat) (data : Nat → Nat → ℚ)
    (settle_at r : Nat) (s : StateF) (p : Nat) (hp : points ≤ p) :
    (iteration_f points dimension k data settle_at r s).point_centroid_map p
      = s.point_centroid_map p :=
  (assign_f_invariant points dimension k data settle_at r s points).2.1 p hp

theorem iteration_f_converged (points dimension k : Nat) (data : Nat → Nat → ℚ)
    (settle_at r : Nat) (s : StateF) :
    (iteration_f points dimension k data settle_at r s).has_converged = true ↔
      ∀ p, p < points →
        (iteration_f points dimension k data settle_at r s).point_centroid_map p
          = s.point_centroid_map p :=
  (assign_f_invariant points dimension k data settle_at r s points).2.2.1

theorem iteration_f_acc (points dimension k : Nat) (data : Nat → Nat → ℚ)
    (settle_at r : Nat) (s : StateF) :
    AccInv dimension data points
      (iteration_f points dimension k data settle_at r s).point_centroid_map
      (iteration_f points dimension k data settle_at r s).centroids_point_count
      (iteration_f points dimension k data settle_at r s).centroids_temp :=
  (assign_f_invariant points dimension k data settle_at r s points).2.2.2

theorem iteration_f_centroids (points dimension k : Nat) (data : Nat → Nat → ℚ)
    (settle_at r : Nat) (s : StateF) (c dim : Nat) :
    (iteration_f points dimension k data settle_at r s).centroids c dim
      = if c < k ∧ (iteration_f points dimension k data settle_at r s).centroids_point_count c ≠ 0
            ∧ dim < dimension then
          (iteration_f points dimension k data settle_at r s).centroids_temp c dim
            / ((iteration_f points dimension k data settle_at r s).centroids_point_count c : ℚ)
        else s.centroids c dim := by
  have hc : (assign_f points dimension k data settle_at r s).centroids = s.centroids :=
    (assign_f_invariant points dimension k data settle_at r s points).1
  show update_centroids dimension k _ _ _ c dim = _
  rw [update_centroids_apply, hc]
  rfl

/-! ## Nearest-centroid selection -/

/-- For `k ≥ 1` the scan returns the lowest-indexed centroid among those at
minimal squared distance. -/
theorem centroid_chosen_spec (dimension k : Nat) (centroids data : Nat → Nat → ℚ) (pos : Nat)
    (hk : 1 ≤ k) :
    centroid_chosen dimension k centroids data pos < k ∧
    (∀ j, j < k →
      distance_square dimension centroids data
          (centroid_chosen dimension k centroids data pos) pos
        ≤ distance_square dimension centroids data j pos) ∧
    (∀ j, j < k →
      distance_square dimension centroids data j pos
        = distance_square dimension centroids data
            (centroid_chosen dimension k centroids data pos) pos →
      centroid_chosen dimension k centroids data pos ≤ j) := by
  obtain ⟨n, rfl⟩ : ∃ n, k = n + 1 := ⟨k - 1, by omega⟩
  obtain ⟨h1, _, h3, h4⟩ := find_closest_spec dimension centroids data pos n
  refine ⟨h1, h3, ?_⟩
  intro j _ hj
  by_contra hlt
  have := h4 j (not_le.mp hlt)
  unfold centroid_chosen at hj
  rw [hj] at this
  exact lt_irrefl _ this

theorem body_f_map_self (points dimension k : Nat) (data : Nat → Nat → ℚ)
    (settle_at r pos : Nat) (s : StateF) (h : ¬ s.niter_bound_centroid pos > settle_at) :
    (body_f points dimension k data settle_at r pos s).point_centroid_map pos
      = centroid_chosen dimension k s.centroids data pos := by
  simp only [body_f, search_f]
  rw [if_neg h]
  by_cases hch : s.point_centroid_map pos = centroid_chosen dimension k s.centroids data pos
  · rw [if_neg (by simpa using hch)]; simp
  · rw [if_pos hch]; simp

/-- A point equidistant from two centroids goes to the lower index: the point
`1` of `line4` lies midway between the centroids `0` and `2`. -/
theorem tie_goes_to_lower_index :
    distance_square 1 (fun c _ => 2 * (c : ℚ)) line4 0 1
        = distance_square 1 (fun c _ => 2 * (c : ℚ)) line4 1 1 ∧
      centroid_chosen 1 2 (fun c _ => 2 * (c : ℚ)) line4 1 = 0 := by
  decide!

/-! ## Settle counters -/

theorem forLoop_store1_zero (m lb : Nat) (niter : Nat → Nat) :
    forLoop m (fun i n => store1 n (lb + i) 0) niter
      = fun x => if lb ≤ x ∧ x < lb + m then 0 else niter x := by
  induction m with
  | zero =>
    funext x
    show niter x = _
    rw [if_neg (by omega)]
  | succ m ih =>
    rw [forLoop_succ, ih]
    funext x
    simp only [store1_apply]
    by_cases hx : x = lb + m
    · have : lb ≤ x ∧ x < lb + (m + 1) := by omega
      simp [hx]
    · by_cases hw : lb ≤ x ∧ x < lb + m
      · have : lb ≤ x ∧ x < lb + (m + 1) := by omega
        simp [hx, hw, this]
      · have : ¬ (lb ≤ x ∧ x < lb + (m + 1)) := by omega
        simp [hx, hw, this]

/-- Closed form of the neighbour reset: the counters in the window `lb .. ub`
are cleared, all others are kept. -/
theorem reset_neighbours_apply (points r pos : Nat) (niter : Nat → Nat) (x : Nat) :
    reset_neighbours points r pos niter x
      = if (if pos < r then 0 else pos - r) ≤ x ∧
            x ≤ (if pos + r > points - 1 then points - 1 else pos + r)
        then 0 else niter x := by
  simp only [reset_neighbours, forLoop_store1_zero]
  by_cases h : (if pos < r then 0 else pos - r) ≤ x ∧
      x ≤ (if pos + r > points - 1 then points - 1 else pos + r)
  · rw [if_pos h, if_pos (by omega)]
  · rw [if_neg h, if_neg (by omega)]

theorem search_f_niter (points dimension k : Nat) (data : Nat → Nat → ℚ)
    (settle_at r n : Nat) (s : StateF) (p : Nat) :
    (search_f points dimension k data settle_at r n s).niter_bound_centroid p
        = s.niter_bound_centroid p ∨
      (search_f points dimension k data settle_at r n s).niter_bound_centroid p = 0 := by
  simp only [search_f]
  by_cases hskip : s.niter_bound_centroid n > settle_at
  · rw [if_pos hskip]; exact Or.inl rfl
  · rw [if_neg hskip]
    by_cases hch : s.point_centroid_map n = centroid_chosen dimension k s.centroids data n
    · rw [if_neg (by simpa using hch)]; exact Or.inl rfl
    · rw [if_pos hch]
      show reset_neighbours points r n s.niter_bound_centroid p = _ ∨
        reset_neighbours points r n s.niter_bound_centroid p = 0
      rw [reset_neighbours_apply]
      by_cases hw : (if n < r then 0 else n - r) ≤ p ∧
          p ≤ (if n + r > points - 1 then points - 1 else n + r)
      · rw [if_pos hw]; exact Or.inr rfl
      · rw [if_neg hw]; exact Or.inl rfl

theorem body_f_niter_other (points dimension k : Nat) (data : Nat → Nat → ℚ)
    (settle_at r n : Nat) (s : StateF) (p : Nat) (hp : p ≠ n) :
    (body_f points dimension k data settle_at r n s).niter_bound_centroid p
        = s.niter_bound_centroid p ∨
      (body_f points dimension k data settle_at r n s).niter_bound_centroid p = 0 := by
  have h := search_f_niter points dimension k data settle_at r n s p
  simp only [body_f, store1_apply, if_neg hp]
  exact h

theorem body_f_map_skip (points dimension k : Nat) (data : Nat → Nat → ℚ)
    (settle_at r pos : Nat) (s : StateF) (h : s.niter_bound_centroid pos > settle_at) :
    (body_f points dimension k data settle_at r pos s).point_centroid_map pos
      = s.point_centroid_map pos := by
  simp only [body_f, search_f]
  rw [if_pos h]

/-- In a pass of `k_means_f` every point either receives its nearest centroid
or, when its settle counter exceeded `settle_at` on entry to the pass, keeps
its recorded one. -/
theorem assign_f_map_cases (points dimension k : Nat) (data : Nat → Nat → ℚ)
    (settle_at r : Nat) (s0 : StateF) (n : Nat) :
    let s := forLoop n (body_f points dimension k data settle_at r)
      { s0 with centroids_point_count := fun _ => 0, has_converged := true }
    (∀ p, n ≤ p → s.niter_bound_centroid p = s0.niter_bound_centroid p ∨
      s.niter_bound_centroid p = 0) ∧
    (∀ p, p < n →
      s.point_centroid_map p = centroid_chosen dimension k s0.centroids data p ∨
      (s.point_centroid_map p = s0.point_centroid_map p ∧
        s0.niter_bound_centroid p > settle_at)) := by
  induction n with
  | zero =>
    refine ⟨fun p _ => Or.inl rfl, ?_⟩
    intro p hp; omega
  | succ n ih =>
    obtain ⟨hn, hm⟩ := ih
    obtain ⟨hc, hmge, _, _⟩ := assign_f_invariant points dimension k data settle_at r s0 n
    simp only [forLoop_succ]
    generalize forLoop n (body_f points dimension k data settle_at r)
      { s0 with centroids_point_count := fun _ => 0, has_converged := true } = s
      at hn hm hc hmge
    obtain ⟨_, b2, _, _, _⟩ := body_f_spec points dimension k data settle_at r n s
    refine ⟨?_, ?_⟩
    · intro p hp
      rcases body_f_niter_other points dimension k data settle_at r n s p (by omega) with h | h
      · rw [h]; exact hn p (by omega)
      · exact Or.inr h
    · intro p hp
      by_cases hpn : p = n
      · subst hpn
        by_cases hskip : s.niter_bound_centroid p > settle_at
        · right
          rw [body_f_map_skip points dimension k data settle_at r p s hskip]
          refine ⟨hmge p le_rfl, ?_⟩
          rcases hn p le_rfl with h | h
          · rw [← h]; exact hskip
          · rw [h] at hskip; omega
        · left
          rw [body_f_map_self points dimension k data settle_at r p s hskip, hc]
      · rw [b2 p hpn]
        exact hm p (by omega)

theorem iteration_f_map_cases (points dimension k : Nat) (data : Nat → Nat → ℚ)
    (settle_at r : Nat) (s : StateF) (p : Nat) (hp : p < points) :
    (iteration_f points dimension k data settle_at r s).point_centroid_map p
        = centroid_chosen dimension k s.centroids data p ∨
      ((iteration_f points dimension k data settle_at r s).point_centroid_map p
          = s.point_centroid_map p ∧
        s.niter_bound_centroid p > settle_at) :=
  (assign_f_map_cases points dimension k data settle_at r s points).2 p hp

theorem iteration_f_map_lt (points dimension k : Nat) (data : Nat → Nat → ℚ)
    (settle_at r : Nat) (s : StateF) (hk : 1 ≤ k)
    (h : ∀ p, p < points → s.point_centroid_map p < k ∨ ¬ s.niter_bound_centroid p > settle_at)
    (p : Nat) (hp : p < points) :
    (iteration_f points dimension k data settle_at r s).point_centroid_map p < k := by
  rcases iteration_f_map_cases points dimension k data settle_at r s p hp with h1 | ⟨h1, h2⟩
  · rw [h1]; exact (centroid_chosen_spec dimension k s.centroids data p hk).1
  · rw [h1]
    rcases h p hp with h3 | h3
    · exact h3
    · exact absurd h2 h3

theorem run_d_succ (points dimension k : Nat) (data : Nat → Nat → ℚ) (n : Nat) (s : StateD) :
    run_d points dimension k data (n + 1) s
      = iteration_d points dimension k data (run_d points dimension k data n s) := by
  unfold run_d
  exact Function.iterate_succ_apply' _ _ _

theorem run_f_succ (points dimension k : Nat) (data : Nat → Nat → ℚ) (settle_at r : Nat)
    (n : Nat) (s : StateF) :
    run_f points dimension k data settle_at r (n + 1) s
      = iteration_f points dimension k data settle_at r
          (run_f points dimension k data settle_at r n s) := by
  unfold run_f
  exact Function.iterate_succ_apply' _ _ _

/-- In every state that `k_means_f` reaches, a point is either mapped to a
valid centroid or is not going to be skipped. -/
theorem run_f_map_lt_or_searched (points dimension k : Nat) (data : Nat → Nat → ℚ)
    (settle_at r : Nat) (centroids centroids_temp : Nat → Nat → ℚ) (map : Nat → Nat)
    (hk : 1 ≤ k) (n : Nat) :
    ∀ p, p < points →
      ((run_f points dimension k data settle_at r n
          (init_f centroids centroids_temp map)).point_centroid_map p < k ∨
        ¬ (run_f points dimension k data settle_at r n
          (init_f centroids centroids_temp map)).niter_bound_centroid p > settle_at) := by
  induction n with
  | zero =>
    intro p _
    right
    show ¬ (0 > settle_at)
    omega
  | succ n ih =>
    intro p hp
    left
    rw [run_f_succ]
    exact iteration_f_map_lt points dimension k data settle_at r _ hk ih p hp

/-! ## Centroid update, empty clusters, count conservation -/

theorem AccInv_mean (dimension : Nat) (data : Nat → Nat → ℚ) (n : Nat) (map count : Nat → Nat)
    (temp : Nat → Nat → ℚ) (hinv : AccInv dimension data n map count temp) (c dim : Nat)
    (hdim : dim < dimension) (hpos : 0 < (members n map c).card) :
    count c ≠ 0 ∧
    temp c dim = ∑ p in members n map c, data p dim ∧
    temp c dim / (count c : ℚ)
      = (∑ p in members n map c, data p dim) / ((members n map c).card : ℚ) := by
  have hne : count c ≠ 0 := by rw [hinv.1 c]; omega
  refine ⟨hne, hinv.2 c dim hdim hne, ?_⟩
  rw [hinv.2 c dim hdim hne, hinv.1 c]

theorem AccInv_sum_counts (dimension : Nat) (data : Nat → Nat → ℚ) (n k : Nat)
    (map count : Nat → Nat) (temp : Nat → Nat → ℚ)
    (hinv : AccInv dimension data n map count temp) (hmap : ∀ p, p < n → map p < k) :
    ∑ c in Finset.range k, count c = n := by
  have h1 : ∑ c in Finset.range k, count c
      = ∑ c in Finset.range k, ((Finset.range n).filter (fun p => map p = c)).card :=
    Finset.sum_congr rfl (fun c _ => hinv.1 c)
  rw [h1, ← Finset.card_eq_sum_card_fiberwise
    (fun p hp => Finset.mem_range.mpr (hmap p (Finset.mem_range.mp hp)))]
  exact Finset.card_range n

/-- C3: in both routines and from any state, a centroid to which the pass
assigned no point has, after the update, exactly the coordinates it had before
the update (which are those it had before the pass). -/
theorem empty_cluster_unchanged (points dimension k : Nat) (data : Nat → Nat → ℚ)
    (settle_at r : Nat) (sd : StateD) (sf : StateF) (c : Nat) :
    ((members points (assign_d points dimension k data sd).point_centroid_map c).card = 0 →
      (iteration_d points dimension k data sd).centroids c
          = (assign_d points dimension k data sd).centroids c ∧
        (iteration_d points dimension k data sd).centroids c = sd.centroids c) ∧
    ((members points
        (assign_f points dimension k data settle_at r sf).point_centroid_map c).card = 0 →
      (iteration_f points dimension k data settle_at r sf).centroids c
          = (assign_f points dimension k data settle_at r sf).centroids c ∧
        (iteration_f points dimension k data settle_at r sf).centroids c = sf.centroids c) := by
  constructor
  · intro h0
    have hacc := iteration_d_acc points dimension k data sd
    have hcount : (iteration_d points dimension k data sd).centroids_point_count c = 0 := by
      rw [hacc.1 c]; exact h0
    have hrow : (iteration_d points dimension k data sd).centroids c = sd.centroids c := by
      funext dim
      rw [iteration_d_centroids, if_neg (by simp [hcount])]
    refine ⟨?_, hrow⟩
    rw [hrow, (assign_d_spec points dimension k data sd).1]
  · intro h0
    have hacc := iteration_f_acc points dimension k data settle_at r sf
    have hcount : (iteration_f points dimension k data settle_at r sf).centroids_point_count c
        = 0 := by
      rw [hacc.1 c]; exact h0
    have hrow : (iteration_f points dimension k data settle_at r sf).centroids c
        = sf.centroids c := by
      funext dim
      rw [iteration_f_centroids, if_neg (by simp [hcount])]
    refine ⟨?_, hrow⟩
    have hc : (assign_f points dimension k data settle_at r sf).centroids = sf.centroids :=
      (assign_f_invariant points dimension k data settle_at r sf points).1
    rw [hrow, hc]

/-- Instance of C3: `line4` against the three centroids `0, 1, 5`; the third
attracts no point and stays at `5`. -/
theorem empty_cluster_unchanged_witness :
    ((members 4 (assign_d 4 1 3 line4
        (init_d (fun c _ => if c = 2 then 5 else (c : ℚ)) zero_table
          zero_map)).point_centroid_map 2).card = 0 ∧
      (members 4 (assign_f 4 1 3 line4 0 0
        (init_f (fun c _ => if c = 2 then 5 else (c : ℚ)) zero_table
          zero_map)).point_centroid_map 2).card = 0) ∧
    (iteration_d 4 1 3 line4
        (init_d (fun c _ => if c = 2 then 5 else (c : ℚ)) zero_table zero_map)).centroids 2
      = (init_d (fun c _ => if c = 2 then 5 else (c : ℚ)) zero_table zero_map).centroids 2 ∧
    (iteration_f 4 1 3 line4 0 0
        (init_f (fun c _ => if c = 2 then 5 else (c : ℚ)) zero_table zero_map)).centroids 2
      = (init_f (fun c _ => if c = 2 then 5 else (c : ℚ)) zero_table zero_map).centroids 2 :=
  ⟨⟨by decide!, by decide!⟩,
    ((empty_cluster_unchanged 4 1 3 line4 0 0
      (init_d (fun c _ => if c = 2 then 5 else (c : ℚ)) zero_table zero_map)
      (init_f (fun c _ => if c = 2 then 5 else (c : ℚ)) zero_table zero_map) 2).1
        (by decide!)).2,
    ((empty_cluster_unchanged 4 1 3 line4 0 0
      (init_d (fun c _ => if c = 2 then 5 else (c : ℚ)) zero_table zero_map)
      (init_f (fun c _ => if c = 2 then 5 else (c : ℚ)) zero_table zero_map) 2).2
        (by decide!)).2⟩

/-- C4: for `k ≥ 1`, after the assignment pass of `k_means_d` from any state,
and after every assignment pass of `k_means_f` (the pass following any number
`n` of completed iterations, skipped points included), the member counts of the
`k` centroids add up to `points`, and each count is the number of points
currently mapped to that centroid. -/
theorem count_conservation (points dimension k : Nat) (data : Nat → Nat → ℚ)
    (settle_at r : Nat) (sd : StateD) (centroids centroids_temp : Nat → Nat → ℚ)
    (map : Nat → Nat) (n : Nat) (hk : 1 ≤ k) :
    (∑ c in Finset.range k, (assign_d points dimension k data sd).centroids_point_count c
        = points ∧
      ∀ c, (assign_d points dimension k data sd).centroids_point_count c
        = (members points (assign_d points dimension k data sd).point_centroid_map c).card) ∧
    (∑ c in Finset.range k,
        (assign_f points dimension k data settle_at r
          (run_f points dimension k data settle_at r n
            (init_f centroids centroids_temp map))).centroids_point_count c
        = points ∧
      ∀ c, (assign_f points dimension k data settle_at r
          (run_f points dimension k data settle_at r n
            (init_f centroids centroids_temp map))).centroids_point_count c
        = (members points
            (assign_f points dimension k data settle_at r
              (run_f points dimension k data settle_at r n
                (init_f centroids centroids_temp map))).point_centroid_map c).card) := by
  constructor
  · obtain ⟨_, hm, _, hacc⟩ := assign_d_spec points dimension k data sd
    refine ⟨AccInv_sum_counts dimension data points k _ _ _ hacc ?_, hacc.1⟩
    intro p hp
    rw [hm p, if_pos hp]
    exact (centroid_chosen_spec dimension k sd.centroids data p hk).1
  · have hacc := iteration_f_acc points dimension k data settle_at r
      (run_f points dimension k data settle_at r n (init_f centroids centroids_temp map))
    refine ⟨AccInv_sum_counts dimension data points k _ _ _ hacc ?_, hacc.1⟩
    exact iteration_f_map_lt points dimension k data settle_at r _ hk
      (run_f_map_lt_or_searched points dimension k data settle_at r centroids centroids_temp
        map hk n)

/-- Instance of C4: the second pass of `k_means_f` on `line4` with
`settle_at = 0`, in which every point is skipped. -/
theorem count_conservation_witness :
    1 ≤ 2 ∧
    ∑ c in Finset.range 2, (assign_d 4 1 2 line4
        (init_d line4_centroids zero_table zero_map)).centroids_point_count c = 4 ∧
    ∑ c in Finset.range 2,
        (assign_f 4 1 2 line4 0 0
          (run_f 4 1 2 line4 0 0 1
            (init_f line4_centroids zero_table zero_map))).centroids_point_count c = 4 :=
  ⟨by decide,
    (count_conservation 4 1 2 line4 0 0 (init_d line4_centroids zero_table zero_map)
      line4_centroids zero_table zero_map 1 (by decide)).1.1,
    (count_conservation 4 1 2 line4 0 0 (init_d line4_centroids zero_table zero_map)
      line4_centroids zero_table zero_map 1 (by decide)).2.1⟩

/-! ## The convergence loop -/

theorem buffer_eq_iff (points : Nat) (m1 m2 : Nat → Nat) :
    buffer points m1 = buffer points m2 ↔ ∀ p, p < points → m1 p = m2 p := by
  unfold buffer
  rw [List.map_inj_left]
  constructor
  · intro h p hp; exact h p (List.mem_range.mpr hp)
  · intro h p hp; exact h p (List.mem_range.mp hp)

theorem run_d_succ_inner (points dimension k : Nat) (data : Nat → Nat → ℚ) (n : Nat)
    (s : StateD) :
    run_d points dimension k data (n + 1) s
      = run_d points dimension k data n (iteration_d points dimension k data s) := by
  unfold run_d
  exact Function.iterate_succ_apply _ _ _

theorem run_f_succ_inner (points dimension k : Nat) (data : Nat → Nat → ℚ) (settle_at r : Nat)
    (n : Nat) (s : StateF) :
    run_f points dimension k data settle_at r (n + 1) s
      = run_f points dimension k data settle_at r n
          (iteration_f points dimension k data settle_at r s) := by
  unfold run_f
  exact Function.iterate_succ_apply _ _ _

/-- The loop of `k_means_d` returns exactly at the first trip whose pass
converged, provided the fuel reaches that far. -/
theorem loop_d_eq_some_iff (points dimension k : Nat) (data : Nat → Nat → ℚ)
    (fuel : Nat) (s : StateD) (it n : Nat) (s1 : StateD) :
    loop_d points dimension k data fuel s it = some (n, s1) ↔
      ∃ j, j < fuel ∧ n = it + j + 1 ∧ s1 = run_d points dimension k data (j + 1) s ∧
        (run_d points dimension k data (j + 1) s).has_converged = true ∧
        ∀ i, i < j → (run_d points dimension k data (i + 1) s).has_converged = false := by
  induction fuel generalizing s it with
  | zero =>
    simp [loop_d]
  | succ fuel ih =>
    simp only [loop_d]
    by_cases hconv : (iteration_d points dimension k data s).has_converged = true
    · rw [if_pos hconv]
      constructor
      · intro h
        simp only [Option.some.injEq, Prod.mk.injEq] at h
        refine ⟨0, by omega, by omega, h.2.symm, hconv, ?_⟩
        intro i hi; omega
      · rintro ⟨j, _, hn, hs, _, hall⟩
        cases j with
        | zero =>
          rw [hn, hs]; rfl
        | succ j =>
          have := hall 0 (by omega)
          rw [show run_d points dimension k data (0 + 1) s
              = iteration_d points dimension k data s from rfl] at this
          rw [this] at hconv
          exact absurd hconv (by simp)
    · rw [if_neg hconv, ih]
      constructor
      · rintro ⟨j, hj, hn, hs, hc, hall⟩
        refine ⟨j + 1, by omega, by omega, ?_, ?_, ?_⟩
        · rw [run_d_succ_inner]; exact hs
        · rw [run_d_succ_inner]; exact hc
        · intro i hi
          cases i with
          | zero => simpa using hconv
          | succ i => rw [run_d_succ_inner]; exact hall i (by omega)
      · rintro ⟨j, hj, hn, hs, hc, hall⟩
        cases j with
        | zero =>
          exact absurd hc hconv
        | succ j =>
          refine ⟨j, by omega, by omega, ?_, ?_, ?_⟩
          · rw [← run_d_succ_inner]; exact hs
          · rw [← run_d_succ_inner]; exact hc
          · intro i hi
            rw [← run_d_succ_inner]; exact hall (i + 1) (by omega)

/-- The loop of `k_means_f` returns exactly at the first trip whose pass
converged, provided the fuel reaches that far. -/
theorem loop_f_eq_some_iff (points dimension k : Nat) (data : Nat → Nat → ℚ)
    (settle_at r : Nat) (fuel : Nat) (s : StateF) (it n : Nat) (s1 : StateF) :
    loop_f points dimension k data settle_at r fuel s it = some (n, s1) ↔
      ∃ j, j < fuel ∧ n = it + j + 1 ∧
        s1 = run_f points dimension k data settle_at r (j + 1) s ∧
        (run_f points dimension k data settle_at r (j + 1) s).has_converged = true ∧
        ∀ i, i < j →
          (run_f points dimension k data settle_at r (i + 1) s).has_converged = false := by
  induction fuel generalizing s it with
  | zero =>
    simp [loop_f]
  | succ fuel ih =>
    simp only [loop_f]
    by_cases hconv : (iteration_f points dimension k data settle_at r s).has_converged = true
    · rw [if_pos hconv]
      constructor
      · intro h
        simp only [Option.some.injEq, Prod.mk.injEq] at h
        refine ⟨0, by omega, by omega, h.2.symm, hconv, ?_⟩
        intro i hi; omega
      · rintro ⟨j, _, hn, hs, _, hall⟩
        cases j with
        | zero =>
          rw [hn, hs]; rfl
        | succ j =>
          have := hall 0 (by omega)
          rw [show run_f points dimension k data settle_at r (0 + 1) s
              = iteration_f points dimension k data settle_at r s from rfl] at this
          rw [this] at hconv
          exact absurd hconv (by simp)
    · rw [if_neg hconv, ih]
      constructor
      · rintro ⟨j, hj, hn, hs, hc, hall⟩
        refine ⟨j + 1, by omega, by omega, ?_, ?_, ?_⟩
        · rw [run_f_succ_inner]; exact hs
        · rw [run_f_succ_inner]; exact hc
        · intro i hi
          cases i with
          | zero => simpa using hconv
          | succ i => rw [run_f_succ_inner]; exact hall i (by omega)
      · rintro ⟨j, hj, hn, hs, hc, hall⟩
        cases j with
        | zero =>
          exact absurd hc hconv
        | succ j =>
          refine ⟨j, by omega, by omega, ?_, ?_, ?_⟩
          · rw [← run_f_succ_inner]; exact hs
          · rw [← run_f_succ_inner]; exact hc
          · intro i hi
            rw [← run_f_succ_inner]; exact hall (i + 1) (by omega)

theorem iteration_d_converged_iff_map (points dimension k : Nat) (data : Nat → Nat → ℚ)
    (s : StateD) :
    (iteration_d points dimension k data s).has_converged = true ↔
      (iteration_d points dimension k data s).point_centroid_map = s.point_centroid_map := by
  rw [iteration_d_converged]
  constructor
  · intro h
    funext p
    rw [iteration_d_map]
    by_cases hp : p < points
    · rw [if_pos hp, h p hp]
    · rw [if_neg hp]
  · intro h p hp
    have := congrFun h p
    rw [iteration_d_map, if_pos hp] at this
    exact this.symm

theorem iteration_f_converged_iff_map (points dimension k : Nat) (data : Nat → Nat → ℚ)
    (settle_at r : Nat) (s : StateF) :
    (iteration_f points dimension k data settle_at r s).has_converged = true ↔
      (iteration_f points dimension k data settle_at r s).point_centroid_map
        = s.point_centroid_map := by
  rw [iteration_f_converged]
  constructor
  · intro h
    funext p
    by_cases hp : p < points
    · exact h p hp
    · exact iteration_f_map_ge points dimension k data settle_at r s p (by omega)
  · intro h p _
    exact congrFun h p

/-- A pass that leaves `has_converged` false changed some point among the first
`points`, given that it leaves the map alone beyond them. -/
theorem exists_changed_of_ne (points : Nat) (m1 m0 : Nat → Nat)
    (hge : ∀ p, points ≤ p → m1 p = m0 p) (hne : m1 ≠ m0) :
    ∃ p, p < points ∧ m1 p ≠ m0 p := by
  by_contra hno
  apply hne
  funext p
  by_cases hp : p < points
  · by_contra hp2
    exact hno ⟨p, hp, hp2⟩
  · exact hge p (by omega)

/-- `ConvergedAt` in terms of the flags `has_converged` left by the passes. -/
theorem convergedAt_iff_flags (points : Nat) (maps : Nat → Nat → Nat) (conv : Nat → Bool)
    (hconv : ∀ i, conv (i + 1) = true ↔ maps (i + 1) = maps i)
    (hge : ∀ i p, points ≤ p → maps (i + 1) p = maps i p) (n : Nat) :
    ConvergedAt points maps n ↔
      ∃ j, n = j + 1 ∧ conv (j + 1) = true ∧ ∀ i, i < j → conv (i + 1) = false := by
  constructor
  · rintro ⟨h1, hch, hlast⟩
    obtain ⟨j, rfl⟩ : ∃ j, n = j + 1 := ⟨n - 1, by omega⟩
    refine ⟨j, rfl, (hconv j).mpr hlast, ?_⟩
    intro i hi
    obtain ⟨p, _, hp⟩ := hch (i + 1) (by omega) (by omega)
    cases hc : conv (i + 1) with
    | false => rfl
    | true =>
      exact absurd (congrFun ((hconv i).mp hc) p) hp
  · rintro ⟨j, rfl, hc, hall⟩
    refine ⟨by omega, ?_, (hconv j).mp hc⟩
    intro i hi1 hi2
    obtain ⟨i0, rfl⟩ : ∃ i0, i = i0 + 1 := ⟨i - 1, by omega⟩
    apply exists_changed_of_ne points _ _ (hge i0)
    intro heq
    have := (hconv i0).mpr heq
    rw [hall i0 (by omega)] at this
    exact absurd this (by simp)

/-- The return value of `k_means_d` characterised by the passes. -/
theorem convergence_controller_d (points dimension k : Nat)
    (data centroids centroids_temp : Nat → Nat → ℚ) (map : Nat → Nat)
    (fuel n : Nat) (out : List Nat) :
    k_means_d fuel points dimension k data centroids centroids_temp map = some (n, out) ↔
      n ≤ fuel ∧
      out = buffer points
        (run_d points dimension k data n
          (init_d centroids centroids_temp map)).point_centroid_map ∧
      ConvergedAt points
        (fun i => (run_d points dimension k data i
          (init_d centroids centroids_temp map)).point_centroid_map) n := by
  rw [convergedAt_iff_flags points
    (fun i => (run_d points dimension k data i
      (init_d centroids centroids_temp map)).point_centroid_map)
    (fun i => (run_d points dimension k data i
      (init_d centroids centroids_temp map)).has_converged)
    (fun i => by
      simp only [run_d_succ]
      exact iteration_d_converged_iff_map points dimension k data _)
    (fun i p hp => by
      simp only [run_d_succ]
      rw [iteration_d_map, if_neg (by omega)])]
  unfold k_means_d
  rw [Option.map_eq_some']
  constructor
  · rintro ⟨⟨n1, s1⟩, hloop, heq⟩
    simp only [Prod.mk.injEq] at heq
    obtain ⟨j, hj, hn, hs, hc, hall⟩ := (loop_d_eq_some_iff _ _ _ _ _ _ _ _ _).mp hloop
    obtain ⟨rfl, rfl⟩ := heq
    subst hn hs
    refine ⟨by omega, by rw [Nat.zero_add], j, by omega, hc, hall⟩
  · rintro ⟨hfuel, hout, j, rfl, hc, hall⟩
    refine ⟨(j + 1, run_d points dimension k data (j + 1)
      (init_d centroids centroids_temp map)), ?_, ?_⟩
    · exact (loop_d_eq_some_iff _ _ _ _ _ _ _ _ _).mpr
        ⟨j, by omega, by omega, rfl, hc, hall⟩
    · simp only [Prod.mk.injEq, true_and]
      exact hout.symm

/-- The return value of `k_means_f` characterised by the passes. -/
theorem convergence_controller_f (points dimension k : Nat)
    (data centroids centroids_temp : Nat → Nat → ℚ) (map : Nat → Nat) (settle_at r : Nat)
    (fuel n : Nat) (out : List Nat) :
    k_means_f settle_at r fuel points dimension k data centroids centroids_temp map
        = some (n, out) ↔
      n ≤ fuel ∧
      out = buffer points
        (run_f points dimension k data settle_at r n
          (init_f centroids centroids_temp map)).point_centroid_map ∧
      ConvergedAt points
        (fun i => (run_f points dimension k data settle_at r i
          (init_f centroids centroids_temp map)).point_centroid_map) n := by
  rw [convergedAt_iff_flags points
    (fun i => (run_f points dimension k data settle_at r i
      (init_f centroids centroids_temp map)).point_centroid_map)
    (fun i => (run_f points dimension k data settle_at r i
      (init_f centroids centroids_temp map)).has_converged)
    (fun i => by
      simp only [run_f_succ]
      exact iteration_f_converged_iff_map points dimension k data settle_at r _)
    (fun i p hp => by
      simp only [run_f_succ]
      exact iteration_f_map_ge points dimension k data settle_at r _ p hp)]
  unfold k_means_f
  rw [Option.map_eq_some']
  constructor
  · rintro ⟨⟨n1, s1⟩, hloop, heq⟩
    simp only [Prod.mk.injEq] at heq
    obtain ⟨j, hj, hn, hs, hc, hall⟩ := (loop_f_eq_some_iff _ _ _ _ _ _ _ _ _ _ _).mp hloop
    obtain ⟨rfl, rfl⟩ := heq
    subst hn hs
    refine ⟨by omega, by rw [Nat.zero_add], j, by omega, hc, hall⟩
  · rintro ⟨hfuel, hout, j, rfl, hc, hall⟩
    refine ⟨(j + 1, run_f points dimension k data settle_at r (j + 1)
      (init_f centroids centroids_temp map)), ?_, ?_⟩
    · exact (loop_f_eq_some_iff _ _ _ _ _ _ _ _ _ _ _).mpr
        ⟨j, by omega, by omega, rfl, hc, hall⟩
    · simp only [Prod.mk.injEq, true_and]
      exact hout.symm

/-- C5: `k_means_d` (and likewise `k_means_f`) returns the count `n` and the
buffer `out` exactly when the fuel allows `n` trips, `out` is the buffer after
`n` assignment+update passes, `n ≥ 1`, each of the passes `1 .. n-1` changed the
assignment of at least one point, and pass `n` changed none, so that the
returned map is the map held before the last pass. -/
theorem convergence_controller (points dimension k : Nat)
    (data centroids centroids_temp : Nat → Nat → ℚ) (map : Nat → Nat) (settle_at r : Nat)
    (fuel n : Nat) (out : List Nat) :
    (k_means_d fuel points dimension k data centroids centroids_temp map = some (n, out) ↔
      n ≤ fuel ∧
      out = buffer points
        (run_d points dimension k data n
          (init_d centroids centroids_temp map)).point_centroid_map ∧
      ConvergedAt points
        (fun i => (run_d points dimension k data i
          (init_d centroids centroids_temp map)).point_centroid_map) n) ∧
    (k_means_f settle_at r fuel points dimension k data centroids centroids_temp map
        = some (n, out) ↔
      n ≤ fuel ∧
      out = buffer points
        (run_f points dimension k data settle_at r n
          (init_f centroids centroids_temp map)).point_centroid_map ∧
      ConvergedAt points
        (fun i => (run_f points dimension k data settle_at r i
          (init_f centroids centroids_temp map)).point_centroid_map) n) :=
  ⟨convergence_controller_d points dimension k data centroids centroids_temp map fuel n out,
    convergence_controller_f points dimension k data centroids centroids_temp map settle_at r
      fuel n out⟩

/-- Instance of C5: on `line4` with initial centroids `0, 1` the exact routine
returns after three passes, and the third pass changed nothing. -/
theorem convergence_controller_witness :
    k_means_d 5 4 1 2 line4 line4_centroids zero_table zero_map = some (3, [0, 0, 1, 1]) ∧
    ConvergedAt 4
      (fun i => (run_d 4 1 2 line4 i
        (init_d line4_centroids zero_table zero_map)).point_centroid_map) 3 :=
  ⟨by decide!,
    ((convergence_controller 4 1 2 line4 line4_centroids zero_table zero_map 0 0 5 3
      [0, 0, 1, 1]).1.mp (by decide!)).2.2⟩

/-! ## One iteration as a function of the centroids -/

theorem distance_square_congr (dimension : Nat) (c1 c2 data : Nat → Nat → ℚ) (i p : Nat)
    (h : ∀ j, j < dimension → c1 i j = c2 i j) :
    distance_square dimension c1 data i p = distance_square dimension c2 data i p := by
  rw [distance_square_eq_sum, distance_square_eq_sum]
  apply Finset.sum_congr rfl
  intro j hj
  rw [h j (Finset.mem_range.mp hj)]

theorem find_closest_congr (dimension k : Nat) (c1 c2 data : Nat → Nat → ℚ) (p : Nat)
    (h : ∀ i, i < k → ∀ j, j < dimension → c1 i j = c2 i j) :
    find_closest dimension k c1 data p = find_closest dimension k c2 data p := by
  induction k with
  | zero => rfl
  | succ k ih =>
    have e1 : find_closest dimension (k + 1) c1 data p
        = (if lt_closest (distance_square dimension c1 data k p)
              (find_closest dimension k c1 data p).2
           then (k, some (distance_square dimension c1 data k p))
           else find_closest dimension k c1 data p) := rfl
    have e2 : find_closest dimension (k + 1) c2 data p
        = (if lt_closest (distance_square dimension c2 data k p)
              (find_closest dimension k c2 data p).2
           then (k, some (distance_square dimension c2 data k p))
           else find_closest dimension k c2 data p) := rfl
    rw [e1, e2, ih (fun i hi => h i (by omega)),
      distance_square_congr dimension c1 c2 data k p (h k (by omega))]

theorem centroid_chosen_congr (dimension k : Nat) (c1 c2 data : Nat → Nat → ℚ) (p : Nat)
    (h : ∀ i, i < k → ∀ j, j < dimension → c1 i j = c2 i j) :
    centroid_chosen dimension k c1 data p = centroid_chosen dimension k c2 data p := by
  unfold centroid_chosen
  rw [find_closest_congr dimension k c1 c2 data p h]

/-- The centroids after one iteration of `k_means_d`, in terms of the new
assignment map alone. -/
theorem iteration_d_centroids_mean (points dimension k : Nat) (data : Nat → Nat → ℚ)
    (s : StateD) (c dim : Nat) :
    (iteration_d points dimension k data s).centroids c dim
      = if c < k ∧ dim < dimension ∧
            0 < (members points (iteration_d points dimension k data s).point_centroid_map c).card
        then
          (∑ p in members points (iteration_d points dimension k data s).point_centroid_map c,
              data p dim)
            / ((members points
                (iteration_d points dimension k data s).point_centroid_map c).card : ℚ)
        else s.centroids c dim := by
  have hacc := iteration_d_acc points dimension k data s
  rw [iteration_d_centroids]
  by_cases h : c < k ∧ dim < dimension ∧
      0 < (members points (iteration_d points dimension k data s).point_centroid_map c).card
  · obtain ⟨hc, hdim, hpos⟩ := h
    obtain ⟨hne, _, hmean⟩ := AccInv_mean dimension data points _ _ _ hacc c dim hdim hpos
    rw [if_pos ⟨hc, hne, hdim⟩, if_pos ⟨hc, hdim, hpos⟩, hmean]
  · rw [if_neg h, if_neg]
    rintro ⟨hc, hne, hdim⟩
    apply h
    refine ⟨hc, hdim, ?_⟩
    rw [← hacc.1 c]
    omega

/-- Two states whose centroids agree on the `k × dimension` table produce,
after one iteration of `k_means_d`, maps that agree on the `points` points and
centroids that agree on the table. -/
theorem iteration_d_congr (points dimension k : Nat) (data : Nat → Nat → ℚ) (s1 s2 : StateD)
    (h : ∀ i, i < k → ∀ j, j < dimension → s1.centroids i j = s2.centroids i j) :
    (∀ p, p < points →
      (iteration_d points dimension k data s1).point_centroid_map p
        = (iteration_d points dimension k data s2).point_centroid_map p) ∧
    (∀ i, i < k → ∀ j, j < dimension →
      (iteration_d points dimension k data s1).centroids i j
        = (iteration_d points dimension k data s2).centroids i j) := by
  have hmap : ∀ p, p < points →
      (iteration_d points dimension k data s1).point_centroid_map p
        = (iteration_d points dimension k data s2).point_centroid_map p := by
    intro p hp
    rw [iteration_d_map, iteration_d_map, if_pos hp, if_pos hp,
      centroid_chosen_congr dimension k _ _ data p h]
  refine ⟨hmap, ?_⟩
  intro i hi j hj
  rw [iteration_d_centroids_mean, iteration_d_centroids_mean,
    members_congr points _ _ i hmap, h i hi j hj]

/-! ## The six-point scenario -/

/-- C6: on the six points `(0,0),(0,1),(1,0),(10,10),(10,11),(11,10)` with
`k = 2` and initial centroids `(0,0)`, `(10,10)`, for every initial content of
the assignment map (and of `centroids_temp`), `k_means_d` returns the map
`[0,0,0,1,1,1]` with an iteration count of 1 or 2, as soon as two trips through
the loop are allowed. -/
theorem six_points_scenario (fuel : Nat) (centroids_temp : Nat → Nat → ℚ) (map : Nat → Nat)
    (hfuel : 2 ≤ fuel) :
    k_means_d fuel 6 2 2 six_points six_centroids centroids_temp map
        = some (1, [0, 0, 0, 1, 1, 1]) ∨
      k_means_d fuel 6 2 2 six_points six_centroids centroids_temp map
        = some (2, [0, 0, 0, 1, 1, 1]) := by
  obtain ⟨f, rfl⟩ : ∃ f, fuel = f + 2 := ⟨fuel - 2, by omega⟩
  have h1 := iteration_d_congr 6 2 2 six_points (init_d six_centroids centroids_temp map)
    (init_d six_centroids zero_table zero_map) (fun _ _ _ _ => rfl)
  have h2 := iteration_d_congr 6 2 2 six_points _ _ h1.2
  have b1 : buffer 6 (iteration_d 6 2 2 six_points
      (init_d six_centroids centroids_temp map)).point_centroid_map = [0, 0, 0, 1, 1, 1] := by
    rw [(buffer_eq_iff 6 _ _).mpr h1.1]
    decide!
  have b2 : buffer 6 (iteration_d 6 2 2 six_points (iteration_d 6 2 2 six_points
      (init_d six_centroids centroids_temp map))).point_centroid_map = [0, 0, 0, 1, 1, 1] := by
    rw [(buffer_eq_iff 6 _ _).mpr h2.1]
    decide!
  have hconv2 : (iteration_d 6 2 2 six_points (iteration_d 6 2 2 six_points
      (init_d six_centroids centroids_temp map))).has_converged = true := by
    rw [iteration_d_converged]
    intro p hp
    have e := (buffer_eq_iff 6 _ _).mp (b1.trans b2.symm) p hp
    rw [e, iteration_d_map, if_pos hp]
  simp only [k_means_d, loop_d]
  by_cases hconv1 : (iteration_d 6 2 2 six_points
      (init_d six_centroids centroids_temp map)).has_converged = true
  · left
    rw [if_pos hconv1]
    simp only [Option.map_some', b1]
  · right
    rw [if_neg hconv1, if_pos hconv2]
    simp only [Option.map_some', b2]

/-- Instance of C6 with the all-zero map that `main` passes in: two
iterations. -/
theorem six_points_scenario_witness :
    2 ≤ 2 ∧
    (k_means_d 2 6 2 2 six_points six_centroids zero_table zero_map
        = some (1, [0, 0, 0, 1, 1, 1]) ∨
      k_means_d 2 6 2 2 six_points six_centroids zero_table zero_map
        = some (2, [0, 0, 0, 1, 1, 1])) :=
  ⟨by decide, six_points_scenario 2 zero_table zero_map (by decide)⟩

/-- From the all-zero map the scenario takes two iterations; from a map that
already holds the grouping it takes one. -/
theorem six_points_counts :
    k_means_d 2 6 2 2 six_points six_centroids zero_table zero_map
        = some (2, [0, 0, 0, 1, 1, 1]) ∧
      k_means_d 2 6 2 2 six_points six_centroids zero_table (fun p => if p < 3 then 0 else 1)
        = some (1, [0, 0, 0, 1, 1, 1]) := by
  decide!

/-! ## The within-cluster sum of squares -/

/-- The mean of finitely many values minimises the sum of squared deviations. -/
theorem mean_minimises (S : Finset ℕ) (f : ℕ → ℚ) (a : ℚ) (hS : 0 < S.card) :
    ∑ p in S, ((∑ q in S, f q) / (S.card : ℚ) - f p) ^ 2 ≤ ∑ p in S, (a - f p) ^ 2 := by
  have hn : (0 : ℚ) < (S.card : ℚ) := by exact_mod_cast hS
  set μ : ℚ := (∑ q in S, f q) / (S.card : ℚ) with hμdef
  have hμ : ∑ q in S, f q = (S.card : ℚ) * μ := by
    rw [hμdef]; field_simp
  have hsplit : ∀ p, (a - f p) ^ 2
      = (μ - f p) ^ 2 + ((a - μ) ^ 2 + 2 * (a - μ) * μ) - 2 * (a - μ) * f p := by
    intro p; ring
  have hsum : ∑ p in S, (a - f p) ^ 2
      = ∑ p in S, (μ - f p) ^ 2 + (S.card : ℚ) * (a - μ) ^ 2 := by
    rw [Finset.sum_congr rfl (fun p _ => hsplit p), Finset.sum_sub_distrib,
      Finset.sum_add_distrib, Finset.sum_const, ← Finset.mul_sum, hμ, nsmul_eq_mul]
    ring
  rw [hsum]
  have : 0 ≤ (S.card : ℚ) * (a - μ) ^ 2 := mul_nonneg hn.le (sq_nonneg _)
  linarith

/-- The objective regrouped by centroid and by coordinate. -/
theorem objective_fiberwise (points dimension k : Nat) (data centroids : Nat → Nat → ℚ)
    (map : Nat → Nat) (hmap : ∀ p, p < points → map p < k) :
    objective points dimension data centroids map
      = ∑ c in Finset.range k, ∑ dim in Finset.range dimension,
          ∑ p in members points map c, (centroids c dim - data p dim) ^ 2 := by
  unfold objective
  rw [← Finset.sum_fiberwise_of_maps_to (g := map) (t := Finset.range k)
    (fun p hp => Finset.mem_range.mpr (hmap p (Finset.mem_range.mp hp)))]
  apply Finset.sum_congr rfl
  intro c _
  rw [Finset.sum_comm]
  apply Finset.sum_congr rfl
  intro p hp
  have hpc : map p = c := (Finset.mem_filter.mp hp).2
  rw [hpc, distance_square_eq_sum]

theorem iteration_d_map_lt (points dimension k : Nat) (data : Nat → Nat → ℚ) (s : StateD)
    (hk : 1 ≤ k) (p : Nat) (hp : p < points) :
    (iteration_d points dimension k data s).point_centroid_map p < k := by
  rw [iteration_d_map, if_pos hp]
  exact (centroid_chosen_spec dimension k s.centroids data p hk).1

/-- One iteration of `k_means_d` from a state whose map is in range does not
increase the objective. -/
theorem iteration_d_objective_le (points dimension k : Nat) (data : Nat → Nat → ℚ)
    (s : StateD) (hk : 1 ≤ k) (hmap : ∀ p, p < points → s.point_centroid_map p < k) :
    objective points dimension data (iteration_d points dimension k data s).centroids
        (iteration_d points dimension k data s).point_centroid_map
      ≤ objective points dimension data s.centroids s.point_centroid_map := by
  have hassign : objective points dimension data s.centroids
        (iteration_d points dimension k data s).point_centroid_map
      ≤ objective points dimension data s.centroids s.point_centroid_map := by
    unfold objective
    apply Finset.sum_le_sum
    intro p hp
    have hp1 := Finset.mem_range.mp hp
    rw [iteration_d_map, if_pos hp1]
    exact (centroid_chosen_spec dimension k s.centroids data p hk).2.1 _ (hmap p hp1)
  have hupdate : objective points dimension data
        (iteration_d points dimension k data s).centroids
        (iteration_d points dimension k data s).point_centroid_map
      ≤ objective points dimension data s.centroids
        (iteration_d points dimension k data s).point_centroid_map := by
    rw [objective_fiberwise points dimension k data _ _
        (iteration_d_map_lt points dimension k data s hk),
      objective_fiberwise points dimension k data _ _
        (iteration_d_map_lt points dimension k data s hk)]
    apply Finset.sum_le_sum
    intro c _
    apply Finset.sum_le_sum
    intro dim _
    rw [iteration_d_centroids_mean]
    by_cases h : c < k ∧ dim < dimension ∧
        0 < (members points (iteration_d points dimension k data s).point_centroid_map c).card
    · rw [if_pos h]
      exact mean_minimises _ (fun p => data p dim) (s.centroids c dim) h.2.2
    · rw [if_neg h]
  exact le_trans hupdate hassign

/-- C7: in `k_means_d` over exact arithmetic with `k ≥ 1`, let `J_t` be the sum
over all points of the squared distance to the centroid the point is assigned
to, taken with the map and the centroids after `t` full iterations.  Then
`J_(t+1) ≤ J_t` for every `t ≥ 1`. -/
theorem objective_nonincreasing (points dimension k : Nat)
    (data centroids centroids_temp : Nat → Nat → ℚ) (map : Nat → Nat) (t : Nat)
    (hk : 1 ≤ k) (ht : 1 ≤ t) :
    objective points dimension data
        (run_d points dimension k data (t + 1)
          (init_d centroids centroids_temp map)).centroids
        (run_d points dimension k data (t + 1)
          (init_d centroids centroids_temp map)).point_centroid_map
      ≤ objective points dimension data
        (run_d points dimension k data t (init_d centroids centroids_temp map)).centroids
        (run_d points dimension k data t
          (init_d centroids centroids_temp map)).point_centroid_map := by
  obtain ⟨t0, rfl⟩ : ∃ t0, t = t0 + 1 := ⟨t - 1, by omega⟩
  rw [run_d_succ points dimension k data (t0 + 1)]
  apply iteration_d_objective_le points dimension k data _ hk
  intro p hp
  rw [run_d_succ]
  exact iteration_d_map_lt points dimension k data _ hk p hp

/-- Instance of C7 on `line4`: the objective after the first iteration is `2`,
after the second it is `1`. -/
theorem objective_nonincreasing_witness :
    (1 ≤ 2 ∧ 1 ≤ 1) ∧
    objective 4 1 line4
        (run_d 4 1 2 line4 1 (init_d line4_centroids zero_table zero_map)).centroids
        (run_d 4 1 2 line4 1 (init_d line4_centroids zero_table zero_map)).point_centroid_map
      = 2 ∧
    objective 4 1 line4
        (run_d 4 1 2 line4 (1 + 1) (init_d line4_centroids zero_table zero_map)).centroids
        (run_d 4 1 2 line4 (1 + 1)
          (init_d line4_centroids zero_table zero_map)).point_centroid_map
      ≤ objective 4 1 line4
        (run_d 4 1 2 line4 1 (init_d line4_centroids zero_table zero_map)).centroids
        (run_d 4 1 2 line4 1
          (init_d line4_centroids zero_table zero_map)).point_centroid_map :=
  ⟨⟨by decide, by decide⟩, by decide!,
    objective_nonincreasing 4 1 2 line4 line4_centroids zero_table zero_map 1
      (by decide) (by decide)⟩

/-! ## The fixed point -/

/-- When a pass of `k_means_d` leaves the map as the previous pass left it, the
update reproduces the centroids of the previous iteration. -/
theorem centroids_stable_of_map_stable (points dimension k : Nat) (data : Nat → Nat → ℚ)
    (s : StateD)
    (hmap : (iteration_d points dimension k data
        (iteration_d points dimension k data s)).point_centroid_map
      = (iteration_d points dimension k data s).point_centroid_map) :
    (iteration_d points dimension k data (iteration_d points dimension k data s)).centroids
      = (iteration_d points dimension k data s).centroids := by
  funext c dim
  rw [iteration_d_centroids_mean points dimension k data (iteration_d points dimension k data s),
    hmap]
  by_cases h : c < k ∧ dim < dimension ∧
      0 < (members points (iteration_d points dimension k data s).point_centroid_map c).card
  · rw [if_pos h, iteration_d_centroids_mean, if_pos h]
  · rw [if_neg h]

/-- A state produced by an iteration that changed neither the map nor the
centroids is a fixed point of the iteration, for the map and the centroids. -/
theorem iteration_d_fixed (points dimension k : Nat) (data : Nat → Nat → ℚ) (s : StateD)
    (hmap : (iteration_d points dimension k data s).point_centroid_map = s.point_centroid_map)
    (hcen : (iteration_d points dimension k data s).centroids = s.centroids) :
    (iteration_d points dimension k data
        (iteration_d points dimension k data s)).point_centroid_map
      = (iteration_d points dimension k data s).point_centroid_map ∧
    (iteration_d points dimension k data (iteration_d points dimension k data s)).centroids
      = (iteration_d points dimension k data s).centroids := by
  have h1 : (iteration_d points dimension k data
        (iteration_d points dimension k data s)).point_centroid_map
      = (iteration_d points dimension k data s).point_centroid_map := by
    funext p
    rw [iteration_d_map, hcen, hmap]
    have := congrFun hmap p
    rw [iteration_d_map] at this
    exact this
  exact ⟨h1, centroids_stable_of_map_stable points dimension k data s h1⟩

/-- C8 fails as stated: on the points `0, 2` with `k = 2`, both initial
centroids equal to the point `0` and the all-zero initial map, `k_means_d`
converges in its first pass with the map `[0, 0]`, yet one more pass from the
final state yields the map `[1, 0]` and moves centroid `0` from `1` to `2`. -/
theorem idempotence_fails_after_one_iteration :
    k_means_d 1 2 1 2 two_points zero_table zero_table zero_map = some (1, [0, 0]) ∧
    buffer 2 (iteration_d 2 1 2 two_points
      (run_d 2 1 2 two_points 1
        (init_d zero_table zero_table zero_map))).point_centroid_map = [1, 0] ∧
    (run_d 2 1 2 two_points 1 (init_d zero_table zero_table zero_map)).centroids 0 0 = 1 ∧
    (iteration_d 2 1 2 two_points
      (run_d 2 1 2 two_points 1 (init_d zero_table zero_table zero_map))).centroids 0 0 = 2 := by
  decide!

/-- C8 (amended): once `k_means_d` has converged after at least two
iterations, one more assignment+update pass from its final state yields an
identical assignment map and identical centroids. -/
theorem idempotent_after_two_iterations (points dimension k : Nat)
    (data centroids centroids_temp : Nat → Nat → ℚ) (map : Nat → Nat) (fuel n : Nat)
    (out : List Nat)
    (hret : k_means_d fuel points dimension k data centroids centroids_temp map = some (n, out))
    (hn : 2 ≤ n) :
    (iteration_d points dimension k data
        (run_d points dimension k data n
          (init_d centroids centroids_temp map))).point_centroid_map
      = (run_d points dimension k data n
          (init_d centroids centroids_temp map)).point_centroid_map ∧
    (iteration_d points dimension k data
        (run_d points dimension k data n (init_d centroids centroids_temp map))).centroids
      = (run_d points dimension k data n (init_d centroids centroids_temp map)).centroids := by
  obtain ⟨_, _, _, _, hlast⟩ :=
    (convergence_controller_d points dimension k data centroids centroids_temp map
      fuel n out).mp hret
  obtain ⟨m, rfl⟩ : ∃ m, n = m + 2 := ⟨n - 2, by omega⟩
  have hlast2 : (run_d points dimension k data (m + 2)
        (init_d centroids centroids_temp map)).point_centroid_map
      = (run_d points dimension k data (m + 1)
        (init_d centroids centroids_temp map)).point_centroid_map := hlast
  rw [run_d_succ points dimension k data (m + 1)] at hlast2 ⊢
  rw [run_d_succ points dimension k data m] at hlast2 ⊢
  exact iteration_d_fixed points dimension k data _ hlast2
    (centroids_stable_of_map_stable points dimension k data _ hlast2)

/-- Instance of the amended C8 on `line4`, where `k_means_d` converges in
three iterations. -/
theorem idempotent_after_two_iterations_witness :
    (k_means_d 3 4 1 2 line4 line4_centroids zero_table zero_map = some (3, [0, 0, 1, 1]) ∧
      2 ≤ 3) ∧
    (iteration_d 4 1 2 line4
        (run_d 4 1 2 line4 3
          (init_d line4_centroids zero_table zero_map))).point_centroid_map
      = (run_d 4 1 2 line4 3 (init_d line4_centroids zero_table zero_map)).point_centroid_map ∧
    (iteration_d 4 1 2 line4
        (run_d 4 1 2 line4 3 (init_d line4_centroids zero_table zero_map))).centroids
      = (run_d 4 1 2 line4 3 (init_d line4_centroids zero_table zero_map)).centroids :=
  ⟨⟨by decide!, by decide⟩,
    idempotent_after_two_iterations 4 1 2 line4 line4_centroids zero_table zero_map 3 3
      [0, 0, 1, 1] (by decide!) (by decide)⟩

/-! ## `k_means_f` against `k_means_d` -/

theorem StateD_eq (a b : StateD) (h1 : a.centroids = b.centroids)
    (h2 : a.centroids_temp = b.centroids_temp)
    (h3 : a.centroids_point_count = b.centroids_point_count)
    (h4 : a.point_centroid_map = b.point_centroid_map)
    (h5 : a.has_converged = b.has_converged) : a = b := by
  cases a
  cases b
  simp only [StateD.mk.injEq]
  exact ⟨h1, h2, h3, h4, h5⟩

/-- A trip through the loop body of `k_means_f` that does not take the
`goto skip` acts on the shared state as the loop body of `k_means_d`. -/
theorem body_f_no_skip (points dimension k : Nat) (data : Nat → Nat → ℚ)
    (settle_at r n : Nat) (s : StateF) (h : ¬ s.niter_bound_centroid n > settle_at) :
    (body_f points dimension k data settle_at r n s).toStateD
      = body_d dimension k data n s.toStateD := by
  simp only [body_f, search_f]
  rw [if_neg h]
  by_cases hch : s.point_centroid_map n = centroid_chosen dimension k s.centroids data n
  · rw [if_neg (by simpa using hch)]
    apply StateD_eq <;> simp [body_d, hch]
  · rw [if_pos hch]
    apply StateD_eq <;> simp [body_d, hch]

/-- If a property `P` of the settle counters rules out the skip at every point
and is maintained by the loop body, the assignment pass of `k_means_f` acts on
the shared state as the assignment pass of `k_means_d`. -/
theorem assign_f_simulates (points dimension k : Nat) (data : Nat → Nat → ℚ)
    (settle_at r : Nat) (P : Nat → (Nat → Nat) → Prop) (s0 : StateF)
    (hP0 : P 0 s0.niter_bound_centroid)
    (hstep : ∀ n, n < points → ∀ s : StateF, P n s.niter_bound_centroid →
      ¬ s.niter_bound_centroid n > settle_at ∧
      P (n + 1) (body_f points dimension k data settle_at r n s).niter_bound_centroid) :
    (assign_f points dimension k data settle_at r s0).toStateD
        = assign_d points dimension k data s0.toStateD ∧
      P points (assign_f points dimension k data settle_at r s0).niter_bound_centroid := by
  unfold assign_f assign_d
  apply forLoop_invariant
    (fun m (t : StateF) =>
      t.toStateD = forLoop m (body_d dimension k data)
          { s0.toStateD with centroids_point_count := fun _ => 0, has_converged := true } ∧
        P m t.niter_bound_centroid)
  · exact ⟨rfl, hP0⟩
  · intro n hn t ⟨ht, hPt⟩
    obtain ⟨hns, hP1⟩ := hstep n hn t hPt
    refine ⟨?_, hP1⟩
    rw [forLoop_succ, ← ht]
    exact body_f_no_skip points dimension k data settle_at r n t hns

theorem iteration_f_simulates (points dimension k : Nat) (data : Nat → Nat → ℚ)
    (settle_at r : Nat) (P : Nat → (Nat → Nat) → Prop) (s0 : StateF)
    (hP0 : P 0 s0.niter_bound_centroid)
    (hstep : ∀ n, n < points → ∀ s : StateF, P n s.niter_bound_centroid →
      ¬ s.niter_bound_centroid n > settle_at ∧
      P (n + 1) (body_f points dimension k data settle_at r n s).niter_bound_centroid) :
    (iteration_f points dimension k data settle_at r s0).toStateD
        = iteration_d points dimension k data s0.toStateD ∧
      P points (iteration_f points dimension k data settle_at r s0).niter_bound_centroid := by
  obtain ⟨h1, h2⟩ := assign_f_simulates points dimension k data settle_at r P s0 hP0 hstep
  refine ⟨?_, h2⟩
  simp only [iteration_f, iteration_d]
  rw [← h1]

/-- The loop body of `k_means_f` keeps every settle counter below `2^32`. -/
theorem body_f_niter_lt (points dimension k : Nat) (data : Nat → Nat → ℚ)
    (settle_at r n : Nat) (s : StateF) (h : ∀ p, s.niter_bound_centroid p < 2 ^ 32) (p : Nat) :
    (body_f points dimension k data settle_at r n s).niter_bound_centroid p < 2 ^ 32 := by
  by_cases hp : p = n
  · subst hp
    simp only [body_f, store1_apply, if_true]
    exact Nat.mod_lt _ (by norm_num)
  · rcases body_f_niter_other points dimension k data settle_at r n s p hp with h1 | h1
    · rw [h1]; exact h p
    · rw [h1]; norm_num

/-- With `settle_at = UINT32_MAX` one trip through the `do` body of `k_means_f`
acts on the shared state as one trip of `k_means_d`, and the settle counters
stay below `2^32`. -/
theorem iteration_f_max (points dimension k : Nat) (data : Nat → Nat → ℚ) (r : Nat)
    (s : StateF) (h : ∀ p, s.niter_bound_centroid p < 2 ^ 32) :
    (iteration_f points dimension k data UINT32_MAX r s).toStateD
        = iteration_d points dimension k data s.toStateD ∧
      ∀ p, (iteration_f points dimension k data UINT32_MAX r s).niter_bound_centroid p
        < 2 ^ 32 := by
  apply iteration_f_simulates points dimension k data UINT32_MAX r
    (fun _ niter => ∀ p, niter p < 2 ^ 32) s h
  intro n _ t ht
  refine ⟨?_, body_f_niter_lt points dimension k data UINT32_MAX r n t ht⟩
  have := ht n
  have hU : UINT32_MAX = 4294967295 := rfl
  omega

theorem run_f_max (points dimension k : Nat) (data : Nat → Nat → ℚ) (r : Nat)
    (s : StateF) (h : ∀ p, s.niter_bound_centroid p < 2 ^ 32) (n : Nat) :
    (run_f points dimension k data UINT32_MAX r n s).toStateD
        = run_d points dimension k data n s.toStateD ∧
      ∀ p, (run_f points dimension k data UINT32_MAX r n s).niter_bound_centroid p
        < 2 ^ 32 := by
  induction n with
  | zero => exact ⟨rfl, h⟩
  | succ n ih =>
    rw [run_f_succ, run_d_succ, ← ih.1]
    exact iteration_f_max points dimension k data r _ ih.2

theorem loop_f_max (points dimension k : Nat) (data : Nat → Nat → ℚ) (r : Nat)
    (fuel : Nat) (s : StateF) (it : Nat) (h : ∀ p, s.niter_bound_centroid p < 2 ^ 32) :
    (loop_f points dimension k data UINT32_MAX r fuel s it).map
        (fun x => (x.1, x.2.toStateD))
      = loop_d points dimension k data fuel s.toStateD it := by
  induction fuel generalizing s it with
  | zero => rfl
  | succ fuel ih =>
    obtain ⟨h1, h2⟩ := iteration_f_max points dimension k data r s h
    simp only [loop_f, loop_d]
    rw [← h1]
    by_cases hc : (iteration_f points dimension k data UINT32_MAX r s).has_converged = true
    · rw [if_pos hc, if_pos hc]
      rfl
    · rw [if_neg hc, if_neg hc]
      exact ih _ _ h2

/-- C10: with `settle_at = UINT32_MAX` and any `invalid_neighbours_up_to`, the
settle counters, which wrap modulo `2^32`, never exceed `UINT32_MAX`, so the
skip test fails whenever line 159 evaluates it; `k_means_f` then goes through
the same sequence of maps, centroids, accumulators and convergence flags as
`k_means_d` and returns the same iteration count and map (or, like it, does not
return within the fuel). -/
theorem default_settle_is_exact (points dimension k : Nat)
    (data centroids centroids_temp : Nat → Nat → ℚ) (map : Nat → Nat) (r fuel : Nat) :
    k_means_f UINT32_MAX r fuel points dimension k data centroids centroids_temp map
        = k_means_d fuel points dimension k data centroids centroids_temp map ∧
    (∀ n, (run_f points dimension k data UINT32_MAX r n
          (init_f centroids centroids_temp map)).toStateD
        = run_d points dimension k data n (init_d centroids centroids_temp map)) ∧
    (∀ n m pos,
      ¬ (forLoop m (body_f points dimension k data UINT32_MAX r)
          { run_f points dimension k data UINT32_MAX r n
              (init_f centroids centroids_temp map) with
            centroids_point_count := fun _ => 0
            has_converged := true }).niter_bound_centroid pos > UINT32_MAX) := by
  have h0 : ∀ p, (init_f centroids centroids_temp map).niter_bound_centroid p < 2 ^ 32 := by
    intro p
    show 0 < 2 ^ 32
    norm_num
  refine ⟨?_, ?_, ?_⟩
  · have h := loop_f_max points dimension k data r fuel
      (init_f centroids centroids_temp map) 0 h0
    unfold k_means_f k_means_d
    rw [show (init_d centroids centroids_temp map)
        = (init_f centroids centroids_temp map).toStateD from rfl, ← h, Option.map_map]
    rfl
  · intro n
    exact (run_f_max points dimension k data r _ h0 n).1
  · intro n m pos
    have hrun := (run_f_max points dimension k data r _ h0 n).2
    have hlt : (forLoop m (body_f points dimension k data UINT32_MAX r)
          { run_f points dimension k data UINT32_MAX r n
              (init_f centroids centroids_temp map) with
            centroids_point_count := fun _ => 0
            has_converged := true }).niter_bound_centroid pos < 2 ^ 32 := by
      induction m generalizing pos with
      | zero => exact hrun pos
      | succ m ih =>
        rw [forLoop_succ]
        exact body_f_niter_lt points dimension k data UINT32_MAX r m _ ih pos
    have hU : UINT32_MAX = 4294967295 := rfl
    omega

/-! ## `settle_at = 0` -/

/-- With an empty neighbour window the search leaves the settle counters as
they are when the counter of the current point is already zero. -/
theorem search_f_niter_radius_zero (points dimension k : Nat) (data : Nat → Nat → ℚ)
    (settle_at n : Nat) (s : StateF) (hn : n < points) (h0 : s.niter_bound_centroid n = 0) :
    (search_f points dimension k data settle_at 0 n s).niter_bound_centroid
      = s.niter_bound_centroid := by
  simp only [search_f]
  by_cases hskip : s.niter_bound_centroid n > settle_at
  · rw [if_pos hskip]
  · rw [if_neg hskip]
    by_cases hch : s.point_centroid_map n = centroid_chosen dimension k s.centroids data n
    · rw [if_neg (by simpa using hch)]
    · rw [if_pos hch]
      show reset_neighbours points 0 n s.niter_bound_centroid = _
      funext x
      rw [reset_neighbours_apply]
      by_cases hx : x = n
      · subst hx
        rw [h0]
        exact ite_self 0
      · rw [if_neg]
        intro hw
        have h1 : (if n < 0 then 0 else n - 0) = n := by
          rw [if_neg (by omega)]; omega
        have h2 : (if n + 0 > points - 1 then points - 1 else n + 0) = n := by
          rw [if_neg (by omega)]; omega
        rw [h1, h2] at hw
        omega

/-- First pass of `k_means_f` with `settle_at = 0` and an empty neighbour
window, started with all settle counters zero: no point is skipped, so the pass
acts on the shared state as the pass of `k_means_d`, and it leaves the counter
of every point at `1`. -/
theorem iteration_f_first_pass (points dimension k : Nat) (data : Nat → Nat → ℚ)
    (s : StateF) (h0 : ∀ p, s.niter_bound_centroid p = 0) :
    (iteration_f points dimension k data 0 0 s).toStateD
        = iteration_d points dimension k data s.toStateD ∧
      ∀ p, p < points → (iteration_f points dimension k data 0 0 s).niter_bound_centroid p
        = 1 := by
  obtain ⟨h1, h2⟩ := iteration_f_simulates points dimension k data 0 0
    (fun n niter => (∀ p, n ≤ p → niter p = 0) ∧ (∀ p, p < n → niter p = 1)) s
    ⟨fun p _ => h0 p, fun p hp => by omega⟩
    (by
      intro n hn t ⟨hge, hlt⟩
      have htn : t.niter_bound_centroid n = 0 := hge n le_rfl
      refine ⟨by omega, ?_, ?_⟩
      · intro p hp
        simp only [body_f, store1_apply,
          search_f_niter_radius_zero points dimension k data 0 n t hn htn]
        rw [if_neg (by omega)]
        exact hge p (by omega)
      · intro p hp
        simp only [body_f, store1_apply,
          search_f_niter_radius_zero points dimension k data 0 n t hn htn]
        by_cases hpn : p = n
        · rw [if_pos hpn, htn]; norm_num
        · rw [if_neg hpn]
          exact hlt p (by omega))
  exact ⟨h1, h2.2⟩

/-- A pass of `k_means_f` entered with every settle counter above `settle_at`
skips every point and leaves the assignment map as it is. -/
theorem iteration_f_all_skipped (points dimension k : Nat) (data : Nat → Nat → ℚ)
    (settle_at r : Nat) (s : StateF)
    (h : ∀ p, p < points → s.niter_bound_centroid p > settle_at) :
    (iteration_f points dimension k data settle_at r s).point_centroid_map
      = s.point_centroid_map := by
  have key := forLoop_invariant
    (fun m (t : StateF) =>
      t.point_centroid_map = s.point_centroid_map ∧
        ∀ p, m ≤ p → t.niter_bound_centroid p = s.niter_bound_centroid p)
    (body_f points dimension k data settle_at r)
    { s with centroids_point_count := fun _ => 0, has_converged := true } points
    ⟨rfl, fun _ _ => rfl⟩
    (by
      intro n hn t ⟨hm, hc⟩
      have hskip : t.niter_bound_centroid n > settle_at := by
        rw [hc n le_rfl]; exact h n hn
      have hsearch : search_f points dimension k data settle_at r n t = t := by
        simp only [search_f]
        rw [if_pos hskip]
      refine ⟨?_, ?_⟩
      · simp only [body_f, hsearch]
        exact hm
      · intro p hp
        simp only [body_f, hsearch, store1_apply]
        rw [if_neg (by omega)]
        exact hc p (by omega))
  exact key.1

/-- C9 fails as stated: on `line4` with initial centroids `0, 1` and the
all-zero map, `k_means_d` returns 3 iterations and the map `[0,0,1,1]`, while
`k_means_f` with `settle_at = 0` and `invalid_neighbours_up_to = 0` returns 2
iterations and the map `[0,1,1,1]`. -/
theorem settle_zero_differs_from_exact :
    k_means_d 5 4 1 2 line4 line4_centroids zero_table zero_map = some (3, [0, 0, 1, 1]) ∧
    k_means_f 0 0 5 4 1 2 line4 line4_centroids zero_table zero_map
      = some (2, [0, 1, 1, 1]) := by
  decide!

/-- C9 (amended): with `settle_at = 0` and `invalid_neighbours_up_to = 0`,
whenever `k_means_d` converges within two iterations, `k_means_f` run on the
same data, initial centroids and initial map (same exact arithmetic, same fuel)
returns the same iteration count and the same final map. -/
theorem settle_zero_agrees_within_two (points dimension k : Nat)
    (data centroids centroids_temp : Nat → Nat → ℚ) (map : Nat → Nat) (fuel n : Nat)
    (out : List Nat)
    (hret : k_means_d fuel points dimension k data centroids centroids_temp map = some (n, out))
    (hn : n ≤ 2) :
    k_means_f 0 0 fuel points dimension k data centroids centroids_temp map
      = some (n, out) := by
  obtain ⟨hfuel, hout, h1, hch, hlast⟩ :=
    (convergence_controller_d points dimension k data centroids centroids_temp map
      fuel n out).mp hret
  have hfirst := iteration_f_first_pass points dimension k data
    (init_f centroids centroids_temp map) (fun _ => rfl)
  have hmap1 : (run_f points dimension k data 0 0 1
        (init_f centroids centroids_temp map)).point_centroid_map
      = (run_d points dimension k data 1
        (init_d centroids centroids_temp map)).point_centroid_map :=
    congrArg StateD.point_centroid_map hfirst.1
  have hmap2 : (run_f points dimension k data 0 0 2
        (init_f centroids centroids_temp map)).point_centroid_map
      = (run_f points dimension k data 0 0 1
        (init_f centroids centroids_temp map)).point_centroid_map :=
    iteration_f_all_skipped points dimension k data 0 0 _
      (fun p hp => by
        have := hfirst.2 p hp
        show (iteration_f points dimension k data 0 0
          (init_f centroids centroids_temp map)).niter_bound_centroid p > 0
        omega)
  rw [convergence_controller_f]
  refine ⟨hfuel, ?_, h1, ?_, ?_⟩
  · rw [hout]
    rcases (show n = 1 ∨ n = 2 by omega) with rfl | rfl
    · rw [hmap1]
    · rw [hmap2, hmap1]
      exact congrArg (buffer points) hlast
  · intro i hi1 hi2
    have hi : i = 1 := by omega
    subst hi
    obtain ⟨p, hp, hne⟩ := hch 1 hi1 hi2
    refine ⟨p, hp, ?_⟩
    show (run_f points dimension k data 0 0 1
        (init_f centroids centroids_temp map)).point_centroid_map p ≠ map p
    rw [hmap1]
    exact hne
  · rcases (show n = 1 ∨ n = 2 by omega) with rfl | rfl
    · show (run_f points dimension k data 0 0 1
          (init_f centroids centroids_temp map)).point_centroid_map = map
      rw [hmap1]
      exact hlast
    · exact hmap2

/-- Instance of the amended C9: the six-point scenario, where `k_means_d`
converges in two iterations. -/
theorem settle_zero_agrees_within_two_witness :
    (k_means_d 2 6 2 2 six_points six_centroids zero_table zero_map
        = some (2, [0, 0, 0, 1, 1, 1]) ∧ 2 ≤ 2) ∧
    k_means_f 0 0 2 6 2 2 six_points six_centroids zero_table zero_map
      = some (2, [0, 0, 0, 1, 1, 1]) :=
  ⟨⟨by decide!, by decide⟩,
    settle_zero_agrees_within_two 6 2 2 six_points six_centroids zero_table zero_map 2 2
      [0, 0, 0, 1, 1, 1] (by decide!) (by decide)⟩

/-! ## The centroid initializer -/

/-- Closed form of the initializer: row `i < k` is a copy of the drawn data
row, on the first `dimension` coordinates. -/
theorem initialize_centroids_apply (RAND_MAX points dimension k : Nat)
    (data : Nat → Nat → ℚ) (rand : Nat → Nat) (centroids : Nat → Nat → ℚ) (i j : Nat) :
    initialize_centroids RAND_MAX points dimension k data rand centroids i j
      = if i < k ∧ j < dimension then
          data (random_position_unsigned RAND_MAX points (rand i)) j
        else centroids i j := by
  unfold initialize_centroids
  induction k with
  | zero => simp [forLoop]
  | succ k ih =>
    rw [forLoop_succ,
      forLoop_store2_set dimension k
        (fun j => data (random_position_unsigned RAND_MAX points (rand k)) j)]
    simp only [ih]
    by_cases hi : i = k
    · subst hi
      by_cases hj : j < dimension
      · simp [hj]
      · simp [hj]
    · have : (i < k + 1) ↔ (i < k) := by omega
      simp [hi, this]

/-- Below `RAND_MAX` the drawn index is a valid row of the data set. -/
theorem random_position_lt (RAND_MAX points r : Nat) (hr : r < RAND_MAX) (hp : 1 ≤ points) :
    random_position_unsigned RAND_MAX points r < points := by
  unfold random_position_unsigned
  have hR : (0 : ℚ) < (RAND_MAX : ℚ) := by exact_mod_cast (by omega : 0 < RAND_MAX)
  have hP : (0 : ℚ) < (points : ℚ) := by exact_mod_cast (by omega : 0 < points)
  have hlt : (r : ℚ) / (RAND_MAX : ℚ) < 1 := by
    rw [div_lt_one hR]
    exact_mod_cast hr
  rw [Nat.floor_lt (by positivity)]
  calc (r : ℚ) / (RAND_MAX : ℚ) * (points : ℚ) < 1 * (points : ℚ) :=
        mul_lt_mul_of_pos_right hlt hP
    _ = (points : ℚ) := one_mul _

/-- At `RAND_MAX` itself the drawn index is `points`, one past the last row. -/
theorem random_position_at_max (RAND_MAX points : Nat) (hR : 0 < RAND_MAX) :
    random_position_unsigned RAND_MAX points RAND_MAX = points := by
  unfold random_position_unsigned
  have hR2 : (RAND_MAX : ℚ) ≠ 0 := by exact_mod_cast (by omega : RAND_MAX ≠ 0)
  rw [div_self hR2, one_mul, Nat.floor_natCast]

/-- C11 (the code departs from the claim): with glibc's `RAND_MAX = 2147483647`
and a data set of four points, a call of `random()` returning `RAND_MAX` yields
the index `4`, which is not in `[0, 4)`, and the initializer copies the row
`data[4]` that lies after the data set into the centroid. -/
theorem initializer_index_out_of_range :
    random_position_unsigned 2147483647 4 2147483647 = 4 ∧
    ¬ random_position_unsigned 2147483647 4 2147483647 < 4 ∧
    initialize_centroids 2147483647 4 1 2 (fun p _ => if p < 4 then (p : ℚ) else 99)
      (fun _ => 2147483647) zero_table 0 0 = 99 := by
  decide!

/-! ## Identifiers in range -/

/-- C12: for `k ≥ 1` and whatever the assignment map contains on entry, after
every pass of `k_means_d` and of `k_means_f` every entry of the map for the
`points` points is below `k`; and in every pass of `k_means_f`, at every point
`m`, the identifier that indexes the accumulators after the label `skip` is
below `k`, in particular the identifier reused when the skip is taken. -/
theorem assignment_ids_in_range (points dimension k : Nat)
    (data centroids centroids_temp : Nat → Nat → ℚ) (map : Nat → Nat) (settle_at r n : Nat)
    (hk : 1 ≤ k) :
    (∀ p, p < points →
      (run_d points dimension k data (n + 1)
        (init_d centroids centroids_temp map)).point_centroid_map p < k) ∧
    (∀ p, p < points →
      (run_f points dimension k data settle_at r (n + 1)
        (init_f centroids centroids_temp map)).point_centroid_map p < k) ∧
    (∀ m, m < points →
      (search_f points dimension k data settle_at r m
        (forLoop m (body_f points dimension k data settle_at r)
          { run_f points dimension k data settle_at r n
              (init_f centroids centroids_temp map) with
            centroids_point_count := fun _ => 0
            has_converged := true })).point_centroid_map m < k ∧
      ((forLoop m (body_f points dimension k data settle_at r)
          { run_f points dimension k data settle_at r n
              (init_f centroids centroids_temp map) with
            centroids_point_count := fun _ => 0
            has_converged := true }).niter_bound_centroid m > settle_at →
        (forLoop m (body_f points dimension k data settle_at r)
          { run_f points dimension k data settle_at r n
              (init_f centroids centroids_temp map) with
            centroids_point_count := fun _ => 0
            has_converged := true }).point_centroid_map m < k)) := by
  refine ⟨?_, ?_, ?_⟩
  · intro p hp
    rw [run_d_succ]
    exact iteration_d_map_lt points dimension k data _ hk p hp
  · intro p hp
    rw [run_f_succ]
    exact iteration_f_map_lt points dimension k data settle_at r _ hk
      (run_f_map_lt_or_searched points dimension k data settle_at r centroids centroids_temp
        map hk n) p hp
  · intro m hm
    obtain ⟨_, hmge, _, _⟩ := assign_f_invariant points dimension k data settle_at r
      (run_f points dimension k data settle_at r n (init_f centroids centroids_temp map)) m
    obtain ⟨hnit, _⟩ := assign_f_map_cases points dimension k data settle_at r
      (run_f points dimension k data settle_at r n (init_f centroids centroids_temp map)) m
    have hreach := run_f_map_lt_or_searched points dimension k data settle_at r centroids
      centroids_temp map hk n m hm
    generalize forLoop m (body_f points dimension k data settle_at r)
      { run_f points dimension k data settle_at r n
          (init_f centroids centroids_temp map) with
        centroids_point_count := fun _ => 0
        has_converged := true } = t at hmge hnit
    have hskip : t.niter_bound_centroid m > settle_at → t.point_centroid_map m < k := by
      intro hgt
      rw [hmge m le_rfl]
      rcases hnit m le_rfl with h | h
      · rcases hreach with h1 | h1
        · exact h1
        · rw [h] at hgt; exact absurd hgt h1
      · rw [h] at hgt; omega
    refine ⟨?_, hskip⟩
    by_cases hgt : t.niter_bound_centroid m > settle_at
    · have hsearch : search_f points dimension k data settle_at r m t = t := by
        simp only [search_f]
        rw [if_pos hgt]
      rw [hsearch]
      exact hskip hgt
    · have hb := body_f_map_self points dimension k data settle_at r m t hgt
      have hsame : (body_f points dimension k data settle_at r m t).point_centroid_map
          = (search_f points dimension k data settle_at r m t).point_centroid_map := rfl
      rw [← hsame, hb]
      exact (centroid_chosen_spec dimension k t.centroids data m hk).1

/-- Instance of C12: `line4` entered with the out-of-range map `p ↦ 200`. -/
theorem assignment_ids_in_range_witness :
    1 ≤ 2 ∧
    (run_d 4 1 2 line4 (0 + 1)
      (init_d line4_centroids zero_table (fun _ => 200))).point_centroid_map 3 < 2 ∧
    (run_f 4 1 2 line4 0 0 (1 + 1)
      (init_f line4_centroids zero_table (fun _ => 200))).point_centroid_map 3 < 2 :=
  ⟨by decide,
    (assignment_ids_in_range 4 1 2 line4 line4_centroids zero_table (fun _ => 200) 0 0 0
      (by decide)).1 3 (by decide),
    (assignment_ids_in_range 4 1 2 line4 line4_centroids zero_table (fun _ => 200) 0 0 1
      (by decide)).2.1 3 (by decide)⟩

/-! ## The neighbour window -/

/-- C13: when the point `pos < points` is searched and its recomputed
assignment differs from the recorded one, the settle counters after the reset
of lines 179-183 are zero at exactly the indices `i` with
`max(0, pos - r) ≤ i ≤ min(points - 1, pos + r)` and unchanged at every other
index; every index of that window is below `points`. -/
theorem neighbour_window_reset (points dimension k : Nat) (data : Nat → Nat → ℚ)
    (settle_at r pos : Nat) (s : StateF) (i : Nat) (hpos : pos < points)
    (hsearch : ¬ s.niter_bound_centroid pos > settle_at)
    (hchanged : s.point_centroid_map pos ≠ centroid_chosen dimension k s.centroids data pos) :
    (search_f points dimension k data settle_at r pos s).niter_bound_centroid i
      = (if max (0 : ℤ) ((pos : ℤ) - (r : ℤ)) ≤ (i : ℤ) ∧
            (i : ℤ) ≤ min ((points : ℤ) - 1) ((pos : ℤ) + (r : ℤ))
         then 0 else s.niter_bound_centroid i) ∧
    (max (0 : ℤ) ((pos : ℤ) - (r : ℤ)) ≤ (i : ℤ) ∧
        (i : ℤ) ≤ min ((points : ℤ) - 1) ((pos : ℤ) + (r : ℤ)) → i < points) := by
  constructor
  · simp only [search_f]
    rw [if_neg hsearch, if_pos hchanged]
    show reset_neighbours points r pos s.niter_bound_centroid i = _
    rw [reset_neighbours_apply]
    have hlb : ((if pos < r then 0 else pos - r : Nat) : ℤ) = max (0 : ℤ) ((pos : ℤ) - (r : ℤ)) := by
      split <;> omega
    have hub : ((if pos + r > points - 1 then points - 1 else pos + r : Nat) : ℤ)
        = min ((points : ℤ) - 1) ((pos : ℤ) + (r : ℤ)) := by
      split <;> omega
    by_cases hw : (if pos < r then 0 else pos - r) ≤ i ∧
        i ≤ (if pos + r > points - 1 then points - 1 else pos + r)
    · rw [if_pos hw, if_pos]
      rw [← hlb, ← hub]
      exact ⟨by exact_mod_cast hw.1, by exact_mod_cast hw.2⟩
    · rw [if_neg hw, if_neg]
      rw [← hlb, ← hub]
      intro h
      exact hw ⟨by exact_mod_cast h.1, by exact_mod_cast h.2⟩
  · intro h
    omega

/-- Instance of C13 on `line4` with every counter at `7`, `settle_at = 10` and
radius `1`: the point `1` changes centroid, the counters `0, 1, 2` are cleared
and the counter `3` keeps its value. -/
theorem neighbour_window_reset_witness :
    (1 < 4 ∧ ¬ line4_settled.niter_bound_centroid 1 > 10 ∧
      line4_settled.point_centroid_map 1
        ≠ centroid_chosen 1 2 line4_settled.centroids line4 1) ∧
    (search_f 4 1 2 line4 10 1 1 line4_settled).niter_bound_centroid 2 = 0 ∧
    (search_f 4 1 2 line4 10 1 1 line4_settled).niter_bound_centroid 3 = 7 :=
  ⟨⟨by decide, by decide, by decide!⟩,
    ((neighbour_window_reset 4 1 2 line4 10 1 1 line4_settled 2 (by decide) (by decide)
      (by decide!)).1).trans (by decide),
    ((neighbour_window_reset 4 1 2 line4 10 1 1 line4_settled 3 (by decide) (by decide)
      (by decide!)).1).trans (by decide)⟩

/-! ## `settle_at = 0`: at most two iterations -/

/-- C15 (amended): with `settle_at = 0` and `invalid_neighbours_up_to = 0`,
after the first pass of `k_means_f` the settle counter of every point is `1`;
the second pass therefore skips every point, leaves the map as it is and
records no change; `k_means_f` returns, for every input and as soon as two trips
are allowed, an iteration count of 1 or 2; and, over exact arithmetic, its
result is the nearest-centroid assignment to the initial centroids (the scan
`centroid_chosen` of the exact embedding). -/
theorem settle_zero_stops_after_two (points dimension k : Nat)
    (data centroids centroids_temp : Nat → Nat → ℚ) (map : Nat → Nat) (fuel : Nat)
    (hfuel : 2 ≤ fuel) :
    (∀ p, p < points →
      (run_f points dimension k data 0 0 1
        (init_f centroids centroids_temp map)).niter_bound_centroid p = 1) ∧
    (run_f points dimension k data 0 0 2
        (init_f centroids centroids_temp map)).point_centroid_map
      = (run_f points dimension k data 0 0 1
        (init_f centroids centroids_temp map)).point_centroid_map ∧
    (run_f points dimension k data 0 0 2
        (init_f centroids centroids_temp map)).has_converged = true ∧
    ∃ n, (n = 1 ∨ n = 2) ∧
      k_means_f 0 0 fuel points dimension k data centroids centroids_temp map
        = some (n, buffer points (fun p => centroid_chosen dimension k centroids data p)) := by
  have hfirst := iteration_f_first_pass points dimension k data
    (init_f centroids centroids_temp map) (fun _ => rfl)
  have hmap2 : (run_f points dimension k data 0 0 2
        (init_f centroids centroids_temp map)).point_centroid_map
      = (run_f points dimension k data 0 0 1
        (init_f centroids centroids_temp map)).point_centroid_map :=
    iteration_f_all_skipped points dimension k data 0 0 _
      (fun p hp => by
        have := hfirst.2 p hp
        show (iteration_f points dimension k data 0 0
          (init_f centroids centroids_temp map)).niter_bound_centroid p > 0
        omega)
  have hconv2 : (run_f points dimension k data 0 0 2
        (init_f centroids centroids_temp map)).has_converged = true :=
    (iteration_f_converged_iff_map points dimension k data 0 0 _).mpr hmap2
  have hbuf1 : buffer points (run_f points dimension k data 0 0 1
        (init_f centroids centroids_temp map)).point_centroid_map
      = buffer points (fun p => centroid_chosen dimension k centroids data p) := by
    rw [buffer_eq_iff]
    intro p hp
    have h1 : (run_f points dimension k data 0 0 1
          (init_f centroids centroids_temp map)).point_centroid_map
        = (iteration_d points dimension k data
          (init_d centroids centroids_temp map)).point_centroid_map :=
      congrArg StateD.point_centroid_map hfirst.1
    rw [h1, iteration_d_map, if_pos hp]
    rfl
  refine ⟨hfirst.2, hmap2, hconv2, ?_⟩
  by_cases hconv1 : (run_f points dimension k data 0 0 1
      (init_f centroids centroids_temp map)).has_converged = true
  · refine ⟨1, Or.inl rfl, ?_⟩
    rw [convergence_controller_f]
    refine ⟨by omega, hbuf1.symm, le_rfl, ?_, ?_⟩
    · intro i h1 h2; omega
    · exact (iteration_f_converged_iff_map points dimension k data 0 0 _).mp hconv1
  · refine ⟨2, Or.inr rfl, ?_⟩
    rw [convergence_controller_f]
    refine ⟨hfuel, ?_, by omega, ?_, hmap2⟩
    · rw [hmap2]; exact hbuf1.symm
    · intro i h1 h2
      have hi : i = 1 := by omega
      subst hi
      apply exists_changed_of_ne points _ _
        (fun p hp => iteration_f_map_ge points dimension k data 0 0 _ p hp)
      intro heq
      exact hconv1 ((iteration_f_converged_iff_map points dimension k data 0 0 _).mpr heq)

/-- Instance of C15 on `line4`: two iterations, and the map `[0,1,1,1]` of the
nearest initial centroids `0, 1`. -/
theorem settle_zero_stops_after_two_witness :
    2 ≤ 5 ∧
    k_means_f 0 0 5 4 1 2 line4 line4_centroids zero_table zero_map = some (2, [0, 1, 1, 1]) ∧
    (run_f 4 1 2 line4 0 0 1
      (init_f line4_centroids zero_table zero_map)).niter_bound_centroid 3 = 1 :=
  ⟨by decide, by decide!,
    (settle_zero_stops_after_two 4 1 2 line4 line4_centroids zero_table zero_map 5
      (by decide)).1 3 (by decide)⟩

/-! ## Termination of `k_means_d` -/

theorem potential_lt_trans (a b c : ℚ × Nat) (h1 : potential_lt a b) (h2 : potential_lt b c) :
    potential_lt a c := by
  unfold potential_lt at *
  rcases h1 with h1 | ⟨h1, h1b⟩
  · rcases h2 with h2 | ⟨h2, _⟩
    · exact Or.inl (lt_trans h1 h2)
    · exact Or.inl (h2 ▸ h1)
  · rcases h2 with h2 | ⟨h2, h2b⟩
    · exact Or.inl (h1 ▸ h2)
    · exact Or.inr ⟨h1.trans h2, lt_trans h1b h2b⟩

theorem potential_lt_irrefl (a : ℚ × Nat) : ¬ potential_lt a a := by
  unfold potential_lt
  rintro (h | ⟨_, h⟩)
  · exact lt_irrefl _ h
  · exact lt_irrefl _ h

/-- The reassignment does not move any point away from its centroid. -/
theorem assign_distance_le (points dimension k : Nat) (data : Nat → Nat → ℚ) (s : StateD)
    (hk : 1 ≤ k) (hmap : ∀ p, p < points → s.point_centroid_map p < k) (p : Nat)
    (hp : p < points) :
    distance_square dimension s.centroids data
        ((iteration_d points dimension k data s).point_centroid_map p) p
      ≤ distance_square dimension s.centroids data (s.point_centroid_map p) p := by
  rw [iteration_d_map, if_pos hp]
  exact (centroid_chosen_spec dimension k s.centroids data p hk).2.1 _ (hmap p hp)

/-- The update does not increase the objective of the new map. -/
theorem update_objective_le (points dimension k : Nat) (data : Nat → Nat → ℚ) (s : StateD)
    (hk : 1 ≤ k) :
    objective points dimension data (iteration_d points dimension k data s).centroids
        (iteration_d points dimension k data s).point_centroid_map
      ≤ objective points dimension data s.centroids
        (iteration_d points dimension k data s).point_centroid_map := by
  rw [objective_fiberwise points dimension k data _ _
      (iteration_d_map_lt points dimension k data s hk),
    objective_fiberwise points dimension k data _ _
      (iteration_d_map_lt points dimension k data s hk)]
  apply Finset.sum_le_sum
  intro c _
  apply Finset.sum_le_sum
  intro dim _
  rw [iteration_d_centroids_mean]
  by_cases h : c < k ∧ dim < dimension ∧
      0 < (members points (iteration_d points dimension k data s).point_centroid_map c).card
  · rw [if_pos h]
    exact mean_minimises _ (fun p => data p dim) (s.centroids c dim) h.2.2
  · rw [if_neg h]

/-- An iteration of `k_means_d` that changes the assignment of some point
strictly decreases the potential: either the objective drops, or it stays and
the changed points all moved to a lower-indexed centroid at the same
distance. -/
theorem iteration_d_potential_lt (points dimension k : Nat) (data : Nat → Nat → ℚ)
    (s : StateD) (hk : 1 ≤ k) (hmap : ∀ p, p < points → s.point_centroid_map p < k)
    (hnc : (iteration_d points dimension k data s).has_converged = false) :
    potential_lt (potential points dimension data (iteration_d points dimension k data s))
      (potential points dimension data s) := by
  have hle := assign_distance_le points dimension k data s hk hmap
  have hup := update_objective_le points dimension k data s hk
  by_cases hstrict : ∃ p, p < points ∧
      distance_square dimension s.centroids data
          ((iteration_d points dimension k data s).point_centroid_map p) p
        < distance_square dimension s.centroids data (s.point_centroid_map p) p
  · left
    obtain ⟨p, hp, hlt⟩ := hstrict
    have hsum : objective points dimension data s.centroids
          (iteration_d points dimension k data s).point_centroid_map
        < objective points dimension data s.centroids s.point_centroid_map := by
      unfold objective
      exact Finset.sum_lt_sum (fun q hq => hle q (Finset.mem_range.mp hq))
        ⟨p, Finset.mem_range.mpr hp, hlt⟩
    exact lt_of_le_of_lt hup hsum
  · have heq : ∀ p, p < points →
        distance_square dimension s.centroids data
            ((iteration_d points dimension k data s).point_centroid_map p) p
          = distance_square dimension s.centroids data (s.point_centroid_map p) p := by
      intro p hp
      apply le_antisymm (hle p hp)
      by_contra hcon
      exact hstrict ⟨p, hp, lt_of_le_of_ne (hle p hp) (fun h => hcon (le_of_eq h.symm))⟩
    have hJ : objective points dimension data s.centroids
          (iteration_d points dimension k data s).point_centroid_map
        = objective points dimension data s.centroids s.point_centroid_map := by
      unfold objective
      exact Finset.sum_congr rfl (fun q hq => heq q (Finset.mem_range.mp hq))
    have hidle : ∀ p, p < points →
        (iteration_d points dimension k data s).point_centroid_map p
          ≤ s.point_centroid_map p := by
      intro p hp
      have h := heq p hp
      rw [iteration_d_map, if_pos hp] at h ⊢
      exact (centroid_chosen_spec dimension k s.centroids data p hk).2.2 _ (hmap p hp) h.symm
    have hchanged : ∃ p, p < points ∧
        (iteration_d points dimension k data s).point_centroid_map p
          ≠ s.point_centroid_map p := by
      by_contra hno
      have hconv : (iteration_d points dimension k data s).has_converged = true := by
        rw [iteration_d_converged]
        intro p hp
        by_contra hne
        apply hno
        refine ⟨p, hp, ?_⟩
        rw [iteration_d_map, if_pos hp]
        exact fun h => hne h.symm
      rw [hnc] at hconv
      exact absurd hconv (by simp)
    obtain ⟨p, hp, hne⟩ := hchanged
    have hid : id_sum points (iteration_d points dimension k data s).point_centroid_map
        < id_sum points s.point_centroid_map := by
      unfold id_sum
      exact Finset.sum_lt_sum (fun q hq => hidle q (Finset.mem_range.mp hq))
        ⟨p, Finset.mem_range.mpr hp, lt_of_le_of_ne (hidle p hp) hne⟩
    rcases lt_or_eq_of_le hup with h | h
    · left
      show objective _ _ _ _ _ < objective _ _ _ _ _
      rw [← hJ]
      exact h
    · right
      refine ⟨?_, hid⟩
      show objective _ _ _ _ _ = objective _ _ _ _ _
      rw [← hJ]
      exact h

/-- After an iteration of `k_means_d` the potential is a function of the map
on the `points` points alone: every point lies in a non-empty cluster, whose
centroid is the mean of its members. -/
theorem potential_congr (points dimension k : Nat) (data : Nat → Nat → ℚ) (s1 s2 : StateD)
    (hk : 1 ≤ k)
    (h : ∀ p, p < points →
      (iteration_d points dimension k data s1).point_centroid_map p
        = (iteration_d points dimension k data s2).point_centroid_map p) :
    potential points dimension data (iteration_d points dimension k data s1)
      = potential points dimension data (iteration_d points dimension k data s2) := by
  unfold potential
  congr 1
  · unfold objective
    apply Finset.sum_congr rfl
    intro p hp
    have hp1 := Finset.mem_range.mp hp
    rw [distance_square_eq_sum, distance_square_eq_sum]
    apply Finset.sum_congr rfl
    intro j hj
    have hj1 := Finset.mem_range.mp hj
    have hmem : 0 < (members points (iteration_d points dimension k data s1).point_centroid_map
        ((iteration_d points dimension k data s1).point_centroid_map p)).card := by
      apply Finset.card_pos.mpr
      exact ⟨p, by simp [members, hp1]⟩
    have hmem2 : 0 < (members points (iteration_d points dimension k data s2).point_centroid_map
        ((iteration_d points dimension k data s2).point_centroid_map p)).card := by
      apply Finset.card_pos.mpr
      exact ⟨p, by simp [members, hp1]⟩
    rw [iteration_d_centroids_mean points dimension k data s1,
      iteration_d_centroids_mean points dimension k data s2,
      if_pos ⟨iteration_d_map_lt points dimension k data s1 hk p hp1, hj1, hmem⟩,
      if_pos ⟨iteration_d_map_lt points dimension k data s2 hk p hp1, hj1, hmem2⟩,
      h p hp1, members_congr points _ _ _ h]
  · unfold id_sum
    exact Finset.sum_congr rfl (fun p hp => h p (Finset.mem_range.mp hp))

/-- While the passes `2 .. N + 1` all change some assignment, the potential
after each of the iterations `1 .. N + 1` lies strictly below that of every
earlier one. -/
theorem potential_chain (points dimension k : Nat) (data : Nat → Nat → ℚ) (s0 : StateD)
    (hk : 1 ≤ k) (N : Nat)
    (hnc : ∀ t, 1 ≤ t → t ≤ N →
      (run_d points dimension k data (t + 1) s0).has_converged = false)
    (i j : Nat) (hi : 1 ≤ i) (hij : i < j) (hj : j ≤ N + 1) :
    potential_lt (potential points dimension data (run_d points dimension k data j s0))
      (potential points dimension data (run_d points dimension k data i s0)) := by
  induction j with
  | zero => omega
  | succ j ih =>
    have hstep : potential_lt
        (potential points dimension data (run_d points dimension k data (j + 1) s0))
        (potential points dimension data (run_d points dimension k data j s0)) := by
      have hconv := hnc j (by omega) (by omega)
      rw [run_d_succ] at hconv ⊢
      apply iteration_d_potential_lt points dimension k data _ hk _ hconv
      intro p hp
      obtain ⟨j0, rfl⟩ : ∃ j0, j = j0 + 1 := ⟨j - 1, by omega⟩
      rw [run_d_succ]
      exact iteration_d_map_lt points dimension k data _ hk p hp
    by_cases hij2 : i = j
    · subst hij2
      exact hstep
    · exact potential_lt_trans _ _ _ hstep (ih (by omega) (by omega))

/-- Among the passes `1 .. k ^ points + 1` of `k_means_d` there is one that
changes no assignment: otherwise the maps after the iterations
`1 .. k ^ points + 1` would be pairwise different maps from the `points` points
to the `k` identifiers. -/
theorem exists_converged_pass (points dimension k : Nat) (data : Nat → Nat → ℚ) (s0 : StateD)
    (hk : 1 ≤ k) :
    ∃ t, t ≤ k ^ points ∧
      (run_d points dimension k data (t + 1) s0).has_converged = true := by
  by_contra hno
  have hnc : ∀ t, 1 ≤ t → t ≤ k ^ points →
      (run_d points dimension k data (t + 1) s0).has_converged = false := by
    intro t _ ht
    cases hc : (run_d points dimension k data (t + 1) s0).has_converged with
    | false => rfl
    | true => exact absurd ⟨t, ht, hc⟩ hno
  have hlt : ∀ (t : Nat) (p : Fin points),
      (run_d points dimension k data (t + 1) s0).point_centroid_map p.val < k := by
    intro t p
    rw [run_d_succ]
    exact iteration_d_map_lt points dimension k data _ hk p.val p.isLt
  obtain ⟨x, y, hxy, hf⟩ := Fintype.exists_ne_map_eq_of_card_lt
    (fun (t : Fin (k ^ points + 1)) (p : Fin points) =>
      (⟨(run_d points dimension k data (t.val + 1) s0).point_centroid_map p.val,
        hlt t.val p⟩ : Fin k))
    (by simp)
  have hmaps : ∀ p, p < points →
      (run_d points dimension k data (x.val + 1) s0).point_centroid_map p
        = (run_d points dimension k data (y.val + 1) s0).point_centroid_map p := by
    intro p hp
    have := congrFun hf ⟨p, hp⟩
    simpa using this
  have hpot : potential points dimension data (run_d points dimension k data (x.val + 1) s0)
      = potential points dimension data (run_d points dimension k data (y.val + 1) s0) := by
    rw [run_d_succ, run_d_succ]
    apply potential_congr points dimension k data _ _ hk
    intro p hp
    have := hmaps p hp
    rw [run_d_succ, run_d_succ] at this
    exact this
  have hval : x.val ≠ y.val := fun h => hxy (Fin.ext h)
  rcases Nat.lt_or_gt_of_ne hval with h | h
  · have hchain := potential_chain points dimension k data s0 hk (k ^ points) hnc
      (x.val + 1) (y.val + 1) (by omega) (by omega) (by have := y.isLt; omega)
    rw [hpot] at hchain
    exact potential_lt_irrefl _ hchain
  · have hchain := potential_chain points dimension k data s0 hk (k ^ points) hnc
      (y.val + 1) (x.val + 1) (by omega) (by omega) (by have := x.isLt; omega)
    rw [hpot] at hchain
    exact potential_lt_irrefl _ hchain

/-- C14: over exact rational arithmetic and for `k ≥ 1`, for every data set,
every choice of initial centroids and every initial assignment map, the loop of
`k_means_d` reaches a pass without assignment change after finitely many
iterations: there are a count `n`, at most `k ^ points + 1`, and a map `out`
such that `k_means_d` returns `(n, out)` whenever at least `n` trips through the
loop are allowed. -/
theorem exact_routine_terminates (points dimension k : Nat)
    (data centroids centroids_temp : Nat → Nat → ℚ) (map : Nat → Nat) (hk : 1 ≤ k) :
    ∃ n out, 1 ≤ n ∧ n ≤ k ^ points + 1 ∧
      ∀ fuel, n ≤ fuel →
        k_means_d fuel points dimension k data centroids centroids_temp map
          = some (n, out) := by
  have hex : ∃ t, (run_d points dimension k data (t + 1)
      (init_d centroids centroids_temp map)).has_converged = true := by
    obtain ⟨t, _, ht⟩ := exists_converged_pass points dimension k data
      (init_d centroids centroids_temp map) hk
    exact ⟨t, ht⟩
  obtain ⟨t, htN, ht⟩ := exists_converged_pass points dimension k data
    (init_d centroids centroids_temp map) hk
  refine ⟨Nat.find hex + 1,
    buffer points (run_d points dimension k data (Nat.find hex + 1)
      (init_d centroids centroids_temp map)).point_centroid_map, by omega, ?_, ?_⟩
  · have := Nat.find_min' hex ht
    omega
  · intro fuel hfuel
    have hloop : loop_d points dimension k data fuel (init_d centroids centroids_temp map) 0
        = some (Nat.find hex + 1, run_d points dimension k data (Nat.find hex + 1)
            (init_d centroids centroids_temp map)) := by
      rw [loop_d_eq_some_iff]
      refine ⟨Nat.find hex, by omega, by omega, rfl, Nat.find_spec hex, ?_⟩
      intro i hi
      have := Nat.find_min hex hi
      cases hc : (run_d points dimension k data (i + 1)
          (init_d centroids centroids_temp map)).has_converged with
      | false => rfl
      | true => exact absurd hc this
    unfold k_means_d
    rw [hloop]
    rfl

/-- Instance of C14 on `line4` with `k = 2`: the routine returns within
`2 ^ 4 + 1` iterations (it takes three). -/
theorem exact_routine_terminates_witness :
    1 ≤ 2 ∧
    k_means_d 17 4 1 2 line4 line4_centroids zero_table zero_map = some (3, [0, 0, 1, 1]) ∧
    ∃ n out, n ≤ 2 ^ 4 + 1 ∧
      k_means_d 17 4 1 2 line4 line4_centroids zero_table zero_map = some (n, out) :=
  ⟨by decide, by decide!,
    (exact_routine_terminates 4 1 2 line4 line4_centroids zero_table zero_map (by decide)).elim
      (fun n h => h.elim (fun out h2 => ⟨n, out, h2.2.1, h2.2.2 17 h2.2.1⟩))⟩

/-! ## The embedding over an arithmetic, at exact arithmetic -/

theorem centroid_chosen_in_exact (dimension k : Nat) (centroids data : Nat → Nat → ℚ)
    (pos : Nat) :
    centroid_chosen_in exact_arith dimension k centroids data pos
      = centroid_chosen dimension k centroids data pos := by
  unfold centroid_chosen_in centroid_chosen
  congr 1
  unfold find_closest_in find_closest
  congr 1
  funext centro st
  have hd : distance_square_in exact_arith dimension centroids data centro pos
      = distance_square dimension centroids data centro pos := rfl
  have hlt : lt_closest_in exact_arith
        (distance_square dimension centroids data centro pos) st.2
      = lt_closest (distance_square dimension centroids data centro pos) st.2 := by
    cases st.2 <;> rfl
  simp only [hd, hlt]

theorem body_f_in_exact (points dimension k : Nat) (data : Nat → Nat → ℚ)
    (settle_at r pos : Nat) (s : StateF_in ℚ) :
    (body_f_in exact_arith points dimension k data settle_at r pos s).to_exact
      = body_f points dimension k data settle_at r pos s.to_exact := by
  have hacc : ∀ chosen count temp,
      accumulate_in exact_arith dimension data pos chosen count temp
        = accumulate dimension data pos chosen count temp := fun _ _ _ => rfl
  simp only [body_f_in, body_f, search_f_in, search_f, StateF_in.to_exact,
    centroid_chosen_in_exact, hacc]
  by_cases hskip : s.niter_bound_centroid pos > settle_at
  · simp only [if_pos hskip]
  · simp only [if_neg hskip]
    by_cases hch : s.point_centroid_map pos
        = centroid_chosen dimension k s.centroids data pos
    · simp only [hch, ne_eq, not_true_eq_false, if_false]
    · simp only [ne_eq, hch, not_false_eq_true, if_true]

theorem iteration_f_in_exact (points dimension k : Nat) (data : Nat → Nat → ℚ)
    (settle_at r : Nat) (s : StateF_in ℚ) :
    (iteration_f_in exact_arith points dimension k data settle_at r s).to_exact
      = iteration_f points dimension k data settle_at r s.to_exact := by
  have hloop : ∀ n (t : StateF_in ℚ),
      (forLoop n (body_f_in exact_arith points dimension k data settle_at r) t).to_exact
        = forLoop n (body_f points dimension k data settle_at r) t.to_exact := by
    intro n t
    induction n with
    | zero => rfl
    | succ n ih => rw [forLoop_succ, forLoop_succ, body_f_in_exact, ih]
  have hassign : (assign_f_in exact_arith points dimension k data settle_at r s).to_exact
      = assign_f points dimension k data settle_at r s.to_exact := by
    unfold assign_f_in assign_f
    rw [hloop]
    rfl
  have hupd : ∀ count temp centroids,
      update_centroids_in exact_arith dimension k count temp centroids
        = update_centroids dimension k count temp centroids := fun _ _ _ => rfl
  simp only [iteration_f_in, iteration_f, ← hassign, hupd]
  rfl

theorem loop_f_in_exact (points dimension k : Nat) (data : Nat → Nat → ℚ)
    (settle_at r fuel : Nat) (s : StateF_in ℚ) (it : Nat) :
    (loop_f_in exact_arith points dimension k data settle_at r fuel s it).map
        (fun x => (x.1, x.2.to_exact))
      = loop_f points dimension k data settle_at r fuel s.to_exact it := by
  induction fuel generalizing s it with
  | zero => rfl
  | succ fuel ih =>
    simp only [loop_f_in, loop_f]
    rw [← iteration_f_in_exact]
    by_cases hc : (iteration_f_in exact_arith points dimension k data settle_at r
        s).has_converged = true
    · have hc2 : (iteration_f_in exact_arith points dimension k data settle_at r
          s).to_exact.has_converged = true := hc
      rw [if_pos hc, if_pos hc2]
      rfl
    · have hc2 : ¬ (iteration_f_in exact_arith points dimension k data settle_at r
          s).to_exact.has_converged = true := hc
      rw [if_neg hc, if_neg hc2]
      exact ih _ _

/-- Over exact arithmetic the embedding of `k_means_f` over an arithmetic is
the exact embedding. -/
theorem k_means_f_in_exact (settle_at r fuel points dimension k : Nat)
    (data centroids centroids_temp : Nat → Nat → ℚ) (map : Nat → Nat) :
    k_means_f_in exact_arith settle_at r fuel points dimension k data centroids
        centroids_temp map
      = k_means_f settle_at r fuel points dimension k data centroids centroids_temp map := by
  have h := loop_f_in_exact points dimension k data settle_at r fuel
    (init_f_in centroids centroids_temp map) 0
  unfold k_means_f_in k_means_f
  rw [show init_f centroids centroids_temp map
      = (init_f_in centroids centroids_temp map).to_exact from rfl, ← h, Option.map_map]
  rfl

/-! ## Where the `float` code departs from exact arithmetic -/

/-- C15 fails as stated on the `float` code.  Three points `0, 1, 2^25`, `k = 2`,
initial centroids `0` and `1`, all-zero map, `settle_at = 0`,
`invalid_neighbours_up_to = 0`: `k_means_f` returns the map `[0, 1, 0]`, because
`1 - 2^25` rounds to `-2^25` and the two distances of the third point tie at
`2^50`; the third point is strictly nearer to centroid `1`, and the
nearest-centroid assignment to the initial centroids is `[0, 1, 1]`. -/
theorem float_result_not_nearest :
    k_means_f_in float_arith 0 0 2 3 1 2 (to_float far3) (to_float line4_centroids)
        (to_float zero_table) zero_map = some (2, [0, 1, 0]) ∧
    distance_square_in float_arith 1 (to_float line4_centroids) (to_float far3) 0 2
      = Fl.fin (2 ^ 50) ∧
    distance_square_in float_arith 1 (to_float line4_centroids) (to_float far3) 1 2
      = Fl.fin (2 ^ 50) ∧
    distance_square 1 line4_centroids far3 1 2 < distance_square 1 line4_centroids far3 0 2 ∧
    buffer 3 (fun p => centroid_chosen 1 2 line4_centroids far3 p) = [0, 1, 1] := by
  decide!

/-! ## `settle_at = 0` over an arbitrary arithmetic -/

theorem search_f_in_centroids {F : Type} (A : Arith F) (points dimension k : Nat)
    (data : Nat → Nat → F) (settle_at r n : Nat) (s : StateF_in F) :
    (search_f_in A points dimension k data settle_at r n s).centroids = s.centroids ∧
    ∀ p, p ≠ n →
      (search_f_in A points dimension k data settle_at r n s).point_centroid_map p
        = s.point_centroid_map p := by
  simp only [search_f_in]
  by_cases hskip : s.niter_bound_centroid n > settle_at
  · rw [if_pos hskip]
    exact ⟨rfl, fun _ _ => rfl⟩
  · rw [if_neg hskip]
    by_cases hch : s.point_centroid_map n = centroid_chosen_in A dimension k s.centroids data n
    · rw [if_neg (by simpa using hch)]
      refine ⟨rfl, ?_⟩
      intro p hp; simp [hp]
    · rw [if_pos hch]
      refine ⟨rfl, ?_⟩
      intro p hp; simp [hp]

theorem search_f_in_map_self {F : Type} (A : Arith F) (points dimension k : Nat)
    (data : Nat → Nat → F) (settle_at r n : Nat) (s : StateF_in F)
    (h : ¬ s.niter_bound_centroid n > settle_at) :
    (search_f_in A points dimension k data settle_at r n s).point_centroid_map n
      = centroid_chosen_in A dimension k s.centroids data n := by
  simp only [search_f_in]
  rw [if_neg h]
  by_cases hch : s.point_centroid_map n = centroid_chosen_in A dimension k s.centroids data n
  · rw [if_neg (by simpa using hch)]; simp
  · rw [if_pos hch]; simp

theorem search_f_in_niter_radius_zero {F : Type} (A : Arith F) (points dimension k : Nat)
    (data : Nat → Nat → F) (settle_at n : Nat) (s : StateF_in F) (hn : n < points)
    (h0 : s.niter_bound_centroid n = 0) :
    (search_f_in A points dimension k data settle_at 0 n s).niter_bound_centroid
      = s.niter_bound_centroid := by
  simp only [search_f_in]
  by_cases hskip : s.niter_bound_centroid n > settle_at
  · rw [if_pos hskip]
  · rw [if_neg hskip]
    by_cases hch : s.point_centroid_map n = centroid_chosen_in A dimension k s.centroids data n
    · rw [if_neg (by simpa using hch)]
    · rw [if_pos hch]
      show reset_neighbours points 0 n s.niter_bound_centroid = _
      funext x
      rw [reset_neighbours_apply]
      by_cases hx : x = n
      · subst hx
        rw [h0]
        exact ite_self 0
      · rw [if_neg]
        intro hw
        have h1 : (if n < 0 then 0 else n - 0) = n := by
          rw [if_neg (by omega)]; omega
        have h2 : (if n + 0 > points - 1 then points - 1 else n + 0) = n := by
          rw [if_neg (by omega)]; omega
        rw [h1, h2] at hw
        omega

/-- First pass of `k_means_f` with `settle_at = 0` and an empty neighbour
window, over any arithmetic and started with all settle counters zero: every
point receives the centroid that the scan chooses against the centroids held on
entry, and every settle counter is left at `1`. -/
theorem iteration_f_in_first_pass {F : Type} (A : Arith F) (points dimension k : Nat)
    (data : Nat → Nat → F) (s : StateF_in F) (h0 : ∀ p, s.niter_bound_centroid p = 0) :
    (∀ p, p < points →
      (iteration_f_in A points dimension k data 0 0 s).point_centroid_map p
        = centroid_chosen_in A dimension k s.centroids data p) ∧
    (∀ p, p < points →
      (iteration_f_in A points dimension k data 0 0 s).niter_bound_centroid p = 1) := by
  have key := forLoop_invariant
    (fun m (t : StateF_in F) =>
      t.centroids = s.centroids ∧
      (∀ p, p < m → t.point_centroid_map p
        = centroid_chosen_in A dimension k s.centroids data p) ∧
      (∀ p, m ≤ p → t.niter_bound_centroid p = 0) ∧
      (∀ p, p < m → t.niter_bound_centroid p = 1))
    (body_f_in A points dimension k data 0 0)
    { s with centroids_point_count := fun _ => 0, has_converged := true } points
    ⟨rfl, fun p hp => by omega, fun p _ => h0 p, fun p hp => by omega⟩
    (by
      intro n hn t ⟨hc, hm, hge, hlt⟩
      have htn : t.niter_bound_centroid n = 0 := hge n le_rfl
      obtain ⟨hsc, hsm⟩ := search_f_in_centroids A points dimension k data 0 0 n t
      have hself := search_f_in_map_self A points dimension k data 0 0 n t (by omega)
      have hnit := search_f_in_niter_radius_zero A points dimension k data 0 n t hn htn
      refine ⟨?_, ?_, ?_, ?_⟩
      · simp only [body_f_in]
        rw [hsc, hc]
      · intro p hp
        simp only [body_f_in]
        by_cases hpn : p = n
        · subst hpn
          rw [hself, hc]
        · rw [hsm p hpn]
          exact hm p (by omega)
      · intro p hp
        simp only [body_f_in, store1_apply, hnit]
        rw [if_neg (by omega)]
        exact hge p (by omega)
      · intro p hp
        simp only [body_f_in, store1_apply, hnit]
        by_cases hpn : p = n
        · rw [if_pos hpn, htn]; norm_num
        · rw [if_neg hpn]
          exact hlt p (by omega))
  exact ⟨key.2.1, key.2.2.2⟩

/-- A pass of `k_means_f` over any arithmetic, entered with every settle
counter above `settle_at`, skips every point: the map is left as it is and
`has_converged` stays true. -/
theorem iteration_f_in_all_skipped {F : Type} (A : Arith F) (points dimension k : Nat)
    (data : Nat → Nat → F) (settle_at r : Nat) (s : StateF_in F)
    (h : ∀ p, p < points → s.niter_bound_centroid p > settle_at) :
    (iteration_f_in A points dimension k data settle_at r s).point_centroid_map
        = s.point_centroid_map ∧
      (iteration_f_in A points dimension k data settle_at r s).has_converged = true := by
  have key := forLoop_invariant
    (fun m (t : StateF_in F) =>
      t.point_centroid_map = s.point_centroid_map ∧
        t.has_converged = true ∧
        ∀ p, m ≤ p → t.niter_bound_centroid p = s.niter_bound_centroid p)
    (body_f_in A points dimension k data settle_at r)
    { s with centroids_point_count := fun _ => 0, has_converged := true } points
    ⟨rfl, rfl, fun _ _ => rfl⟩
    (by
      intro n hn t ⟨hm, hconv, hc⟩
      have hskip : t.niter_bound_centroid n > settle_at := by
        rw [hc n le_rfl]; exact h n hn
      have hsearch : search_f_in A points dimension k data settle_at r n t = t := by
        simp only [search_f_in]
        rw [if_pos hskip]
      refine ⟨?_, ?_, ?_⟩
      · simp only [body_f_in, hsearch]
        exact hm
      · simp only [body_f_in, hsearch]
        exact hconv
      · intro p hp
        simp only [body_f_in, hsearch, store1_apply]
        rw [if_neg (by omega)]
        exact hc p (by omega))
  exact ⟨key.1, key.2.1⟩

/-- With `settle_at = 0` and `invalid_neighbours_up_to = 0`, over any
arithmetic of the element type (exact, or `float` with its rounding and
overflow), `k_means_f` returns after one or two iterations, as soon as two trips
are allowed, and its result is the assignment that the scan of the first pass
chooses against the initial centroids. -/
theorem k_means_f_in_settle_zero {F : Type} (A : Arith F) (points dimension k : Nat)
    (data centroids centroids_temp : Nat → Nat → F) (map : Nat → Nat) (fuel : Nat)
    (hfuel : 2 ≤ fuel) :
    ∃ n, (n = 1 ∨ n = 2) ∧
      k_means_f_in A 0 0 fuel points dimension k data centroids centroids_temp map
        = some (n, buffer points (fun p => centroid_chosen_in A dimension k centroids data p)) := by
  obtain ⟨f, rfl⟩ : ∃ f, fuel = f + 2 := ⟨fuel - 2, by omega⟩
  obtain ⟨hmap1, hnit1⟩ := iteration_f_in_first_pass A points dimension k data
    (init_f_in centroids centroids_temp map) (fun _ => rfl)
  obtain ⟨hmap2, hconv2⟩ := iteration_f_in_all_skipped A points dimension k data 0 0
    (iteration_f_in A points dimension k data 0 0 (init_f_in centroids centroids_temp map))
    (fun p hp => by rw [hnit1 p hp]; omega)
  have hbuf1 : buffer points (iteration_f_in A points dimension k data 0 0
        (init_f_in centroids centroids_temp map)).point_centroid_map
      = buffer points (fun p => centroid_chosen_in A dimension k centroids data p) := by
    rw [buffer_eq_iff]
    intro p hp
    exact hmap1 p hp
  simp only [k_means_f_in, loop_f_in]
  by_cases hconv1 : (iteration_f_in A points dimension k data 0 0
      (init_f_in centroids centroids_temp map)).has_converged = true
  · refine ⟨1, Or.inl rfl, ?_⟩
    rw [if_pos hconv1]
    simp only [Option.map_some', hbuf1, Nat.zero_add]
  · refine ⟨2, Or.inr rfl, ?_⟩
    rw [if_neg hconv1, if_pos hconv2]
    simp only [Option.map_some', hmap2, hbuf1, Nat.zero_add]

end KMeans
